import Mathlib

/-!
Verification of the eviction-bounded caching filesystem `evictfs` of the
fsx repository (package `evictfs`, file `evictfs.go`, default policy in
`lru.go`), against its natural-language specification.

The Go code is shallowly embedded: the registry map, the index-aware
binary min-heap (Go `container/heap` over `priorityQueue`), the `touch`
protocol, the expiration checker, the eviction coordinator loop and the
facade operations are all translated into executable Lean functions over
an explicit state.  Items are heap-allocated in Go and shared by pointer
between the registry map and the heap array; the embedding models this
with an item store addressed by numeric ids, so that mutating an item's
`index` field through the heap is visible through the registry as well.
Machine integers (`int`, `int64`, `time.Duration`) are modelled as `Int`;
the arithmetic performed by the code (size accounting, time comparison)
is nowhere near overflow in the scenarios considered, and no claim is
about overflow behavior.  Times are modelled as integers (`time.Time`
compared with `Before`, `time.Since t = now - t`).
-/

namespace Evictfs

/-- FileInfo is the slice of `contextual.FileInfo` that evictfs consumes:
`Size()`, `AccessTime()` and `IsDir()`. -/
structure FileInfo where
  size : Int
  atime : Int
  isDir : Bool
deriving DecidableEq, Repr

/-- Policy bundles the `Metadata` interface methods (`Less`, `Update`,
`Size`, `AccessTime`) of evictfs.go together with the `Config.Metadata`
factory function, for a concrete metadata representation `M`. -/
structure Policy (M : Type) where
  less : M → M → Bool
  update : M → FileInfo → M
  size : M → Int
  accessTime : M → Int
  factory : FileInfo → M

/-- lruPolicy is the default policy installed by `New` when
`Config.Metadata` is nil: `lruMetadata` stores the last `FileInfo`
verbatim (`Update` replaces it), `Less` compares access times with
`Before` (strict), and `Size`/`AccessTime` read the stored info. -/
def lruPolicy : Policy FileInfo where
  less a b := decide (a.atime < b.atime)
  update _ fi := fi
  size m := m.size
  accessTime m := m.atime
  factory fi := fi

/-- resolveMetadata mirrors the head of `New`: if the configured factory
is nil (`none`), the LRU policy is installed. -/
def resolveMetadata (given : Option (Policy FileInfo)) : Policy FileInfo :=
  given.getD lruPolicy

/-- Config carries the three numeric bounds of `evictfs.Config`
(`MaxFiles int`, `MaxSize int64`, `MaxAge time.Duration`), each with
0 (or any non-positive value) meaning unbounded. -/
structure Config where
  maxFiles : Int
  maxSize : Int
  maxAge : Int
deriving DecidableEq, Repr

/-- Item is the `item` struct: the tracked path, its policy metadata and
the back-pointer `index` into the heap's backing array (`-1` once the
item has been popped). -/
structure Item (M : Type) where
  name : String
  metadata : M
  index : Int

/-- EvictFS is the in-memory state of the `filesystem` struct guarded by
`mu`: the registry map `files` (path to item), the heap `pq` (array of
items), `currentSize`, and the capacity-1 eviction-signal channel
(`sig = true` iff a signal is pending).  Items live in `store` and are
referenced by id from both `files` and `pq`, modelling Go's shared
`*item` pointers; `nextId` is the allocator for fresh ids. -/
structure EvictFS (M : Type) where
  files : List (String × Nat)
  store : Nat → Item M
  pq : List Nat
  currentSize : Int
  sig : Bool
  nextId : Nat

/-- regGet is Go map lookup `e.files[name]` on the association-list
model of the registry. -/
def regGet (l : List (String × Nat)) (name : String) : Option Nat :=
  match l with
  | [] => none
  | kv :: t => if kv.1 = name then some kv.2 else regGet t name

/-- regErase is Go map deletion `delete(e.files, name)`. -/
def regErase (l : List (String × Nat)) (name : String) : List (String × Nat) :=
  l.filter (fun kv => !(kv.1 = name : Bool))

/-- regSet is Go map assignment `e.files[name] = it`. -/
def regSet (l : List (String × Nat)) (name : String) (id : Nat) : List (String × Nat) :=
  (name, id) :: regErase l name

/-- setStore overwrites the item behind one id, modelling a write
through a Go `*item` pointer. -/
def setStore {M : Type} (s : EvictFS M) (id : Nat) (it : Item M) : EvictFS M :=
  { s with store := fun k => if k = id then it else s.store k }

/-- pqGet reads `pq.items[i]` (as an id); out-of-range reads, which Go
would panic on and which never occur on the paths we verify, default
to id 0. -/
def pqGet {M : Type} (s : EvictFS M) (i : Nat) : Nat :=
  s.pq.getD i 0

/-- pqLessB is `priorityQueue.Less(i, j)`: compare the metadata of the
items at positions `i` and `j` with the policy order. -/
def pqLessB {M : Type} (P : Policy M) (s : EvictFS M) (i j : Nat) : Bool :=
  P.less (s.store (pqGet s i)).metadata (s.store (pqGet s j)).metadata

/-- pqSwap is `priorityQueue.Swap(i, j)`: swap the two array slots, then
restore the back-pointers `items[i].index = i` and `items[j].index = j`. -/
def pqSwap {M : Type} (s : EvictFS M) (i j : Nat) : EvictFS M :=
  let a := pqGet s i
  let b := pqGet s j
  let s1 := { s with pq := (s.pq.set i b).set j a }
  let s2 := setStore s1 b { s1.store b with index := (i : Int) }
  setStore s2 a { s2.store a with index := (j : Int) }

/-- pqPush is `priorityQueue.Push`: set the new item's index to the old
length and append it. -/
def pqPush {M : Type} (s : EvictFS M) (id : Nat) : EvictFS M :=
  let s1 := setStore s id { s.store id with index := (s.pq.length : Int) }
  { s1 with pq := s1.pq ++ [id] }

/-- pqPopRaw is `priorityQueue.Pop`: detach the last slot, setting the
detached item's index to the sentinel -1 immediately. -/
def pqPopRaw {M : Type} (s : EvictFS M) : EvictFS M × Nat :=
  let id := s.pq.getD (s.pq.length - 1) 0
  let s1 := setStore s id { s.store id with index := -1 }
  ({ s1 with pq := s1.pq.dropLast }, id)

/-- heapUp is `container/heap.up`: sift the item at position `j` towards
the root while it is strictly less than its parent. -/
def heapUp {M : Type} (P : Policy M) (s : EvictFS M) (j : Nat) : EvictFS M :=
  let i := (j - 1) / 2
  if h : i = j ∨ pqLessB P s j i = false then s
  else heapUp P (pqSwap s i j) i
termination_by j
decreasing_by
  have hj : j ≠ 0 := by
    intro hj0
    exact absurd (Or.inl (by simp only [i]; omega)) h
  exact Nat.lt_of_le_of_lt (Nat.div_le_self _ 2) (Nat.pred_lt hj)

/-- heapDownAux is the loop of `container/heap.down`, restricted to the
first `n` slots; it returns the final resting position of the sifted
item alongside the new state. -/
def heapDownAux {M : Type} (P : Policy M) (s : EvictFS M) (i n : Nat) : EvictFS M × Nat :=
  if h : 2 * i + 1 < n then
    let j := if (decide (2 * i + 2 < n) && pqLessB P s (2 * i + 2) (2 * i + 1)) then
        2 * i + 2 else 2 * i + 1
    if pqLessB P s j i then heapDownAux P (pqSwap s i j) j n
    else (s, i)
  else (s, i)
termination_by n - i
decreasing_by
  have hij : i < j := by
    simp only [j]
    split
    · omega
    · omega
  have hjn : j < n := by
    simp only [j]
    split
    · rename_i hg
      simp only [Bool.and_eq_true, decide_eq_true_eq] at hg
      exact hg.1
    · exact h
  omega

/-- heapDown is `container/heap.down`: sift down within the first `n`
slots and report whether the item moved (`i > i0`). -/
def heapDown {M : Type} (P : Policy M) (s : EvictFS M) (i0 n : Nat) : EvictFS M × Bool :=
  let r := heapDownAux P s i0 n
  (r.1, decide (i0 < r.2))

/-- heapPushGo is `heap.Push`: append then sift up from the last slot. -/
def heapPushGo {M : Type} (P : Policy M) (s : EvictFS M) (id : Nat) : EvictFS M :=
  let s1 := pqPush s id
  heapUp P s1 (s1.pq.length - 1)

/-- heapPopGo is `heap.Pop`: swap the root with the last slot, sift the
new root down within the shortened bound, then detach the last slot. -/
def heapPopGo {M : Type} (P : Policy M) (s : EvictFS M) : EvictFS M × Nat :=
  let n := s.pq.length - 1
  let s1 := pqSwap s 0 n
  let s2 := (heapDown P s1 0 n).1
  pqPopRaw s2

/-- heapRemoveGo is `heap.Remove(i)`: swap slot `i` with the last slot,
re-establish heap order around `i` (down, then up if it did not move),
and detach the last slot. -/
def heapRemoveGo {M : Type} (P : Policy M) (s : EvictFS M) (i : Nat) : EvictFS M × Nat :=
  let n := s.pq.length - 1
  let s1 :=
    if n ≠ i then
      let s2 := pqSwap s i n
      let r := heapDown P s2 i n
      if r.2 then r.1 else heapUp P r.1 i
    else s
  pqPopRaw s1

/-- heapFixGo is `heap.Fix(i)`: sift down from `i` over the whole array,
then sift up if the item did not move down. -/
def heapFixGo {M : Type} (P : Policy M) (s : EvictFS M) (i : Nat) : EvictFS M :=
  let r := heapDown P s i s.pq.length
  if r.2 then r.1 else heapUp P r.1 i

theorem pq_setStore {M : Type} (s : EvictFS M) (id : Nat) (it : Item M) :
    (setStore s id it).pq = s.pq := rfl

theorem pq_pqSwap {M : Type} (s : EvictFS M) (i j : Nat) :
    (pqSwap s i j).pq = (s.pq.set i (pqGet s j)).set j (pqGet s i) := rfl

theorem length_pq_pqSwap {M : Type} (s : EvictFS M) (i j : Nat) :
    (pqSwap s i j).pq.length = s.pq.length := by
  simp [pq_pqSwap]

theorem length_pq_heapUp {M : Type} (P : Policy M) (s : EvictFS M) (j : Nat) :
    (heapUp P s j).pq.length = s.pq.length := by
  induction s, j using heapUp.induct P with
  | case1 s j i h => rw [heapUp, dif_pos h]
  | case2 s j i h ih =>
    rw [heapUp, dif_neg h, ih, length_pq_pqSwap]

theorem length_pq_heapDownAux {M : Type} (P : Policy M) (s : EvictFS M) (i n : Nat) :
    (heapDownAux P s i n).1.pq.length = s.pq.length := by
  induction s, i, n using heapDownAux.induct P with
  | case1 s i n h j hl ih =>
    have hjj : (if (decide (2 * i + 2 < n) && pqLessB P s (2 * i + 2) (2 * i + 1)) = true
        then 2 * i + 2 else 2 * i + 1) = j := rfl
    rw [heapDownAux, dif_pos h]
    simp only [hjj]
    rw [if_pos hl, ih, length_pq_pqSwap]
  | case2 s i n h j hl =>
    have hjj : (if (decide (2 * i + 2 < n) && pqLessB P s (2 * i + 2) (2 * i + 1)) = true
        then 2 * i + 2 else 2 * i + 1) = j := rfl
    rw [heapDownAux, dif_pos h]
    simp only [hjj]
    rw [if_neg hl]
  | case3 s i n h =>
    rw [heapDownAux, dif_neg h]

theorem length_pq_pqPopRaw {M : Type} (s : EvictFS M) :
    (pqPopRaw s).1.pq.length = s.pq.length - 1 := by
  simp [pqPopRaw, pq_setStore, List.length_dropLast]

theorem length_pq_heapPopGo {M : Type} (P : Policy M) (s : EvictFS M) :
    (heapPopGo P s).1.pq.length = s.pq.length - 1 := by
  unfold heapPopGo heapDown
  rw [length_pq_pqPopRaw, length_pq_heapDownAux, length_pq_pqSwap]

/-- addFileLocked mirrors `filesystem.addFileLocked`: allocate the item,
install it in the registry map, `heap.Push` it, and add its size to
`currentSize`. -/
def addFileLocked {M : Type} (P : Policy M) (s : EvictFS M) (name : String) (md : M) :
    EvictFS M :=
  let id := s.nextId
  let s1 := setStore s id { name := name, metadata := md, index := 0 }
  let s2 := { s1 with files := regSet s1.files name id, nextId := id + 1 }
  let s3 := heapPushGo P s2 id
  { s3 with currentSize := s3.currentSize + P.size md }

/-- removeFileLocked mirrors `filesystem.removeFileLocked`:
`heap.Remove` at the item's back-pointer index, delete the map entry,
and subtract the item's size. -/
def removeFileLocked {M : Type} (P : Policy M) (s : EvictFS M) (id : Nat) : EvictFS M :=
  let it := s.store id
  let s1 := (heapRemoveGo P s it.index.toNat).1
  let s2 := { s1 with files := regErase s1.files it.name }
  { s2 with currentSize := s2.currentSize - P.size it.metadata }

/-- touch mirrors `filesystem.touch`; `statRes` is the result of the
`contextual.Stat` call against the backing filesystem (`none` for a
failed stat).  A failed stat untracks the path and returns without
signalling; a directory is ignored; otherwise the tracked item is
updated in place (size delta, `Update`, `heap.Fix`) or freshly inserted,
and a non-blocking signal is left on the capacity-1 channel. -/
def touch {M : Type} (P : Policy M) (s : EvictFS M) (name : String)
    (statRes : Option FileInfo) : EvictFS M :=
  match statRes with
  | none =>
    match regGet s.files name with
    | some id => removeFileLocked P s id
    | none => s
  | some info =>
    if info.isDir then s
    else
      let s1 :=
        match regGet s.files name with
        | some id =>
          let s2 := { s with currentSize := s.currentSize - P.size (s.store id).metadata }
          let s3 := setStore s2 id
            { s2.store id with metadata := P.update (s2.store id).metadata info }
          let s4 := { s3 with currentSize := s3.currentSize + P.size (s3.store id).metadata }
          heapFixGo P s4 ((s4.store id).index.toNat)
        | none => addFileLocked P s name (P.factory info)
      { s1 with sig := true }

/-- Backing models the abstract backing filesystem (an external
collaborator, specified only at its interface boundary): a table of
entries and the set of paths whose `Remove` is made to fail. -/
structure Backing where
  entries : List (String × FileInfo)
  failRemove : List String
deriving DecidableEq, Repr

/-- lookupFi is association-list lookup for backing entries. -/
def lookupFi (l : List (String × FileInfo)) (name : String) : Option FileInfo :=
  match l with
  | [] => none
  | kv :: t => if kv.1 = name then some kv.2 else lookupFi t name

/-- bstat is the backing `Stat`. -/
def bstat (b : Backing) (name : String) : Option FileInfo :=
  lookupFi b.entries name

/-- bsetEntry installs or replaces one backing entry (used by backing
`OpenFile` with create semantics, and by the environment to model the
OS refreshing a file's access time). -/
def bsetEntry (b : Backing) (name : String) (fi : FileInfo) : Backing :=
  { b with entries := (name, fi) :: b.entries.filter (fun kv => !(kv.1 = name : Bool)) }

/-- bremove is the backing `Remove`: it fails (entry kept) on the paths
listed in `failRemove`, and otherwise drops the entry; the Bool reports
success. -/
def bremove (b : Backing) (name : String) : Backing × Bool :=
  if name ∈ b.failRemove then (b, false)
  else ({ b with entries := b.entries.filter (fun kv => !(kv.1 = name : Bool)) }, true)

/-- checkExpired mirrors `filesystem.checkExpired`; `now` models the
clock read by `time.Since`.  The Bool result is true iff the call
returned `fs.ErrNotExist`. -/
def checkExpired {M : Type} (P : Policy M) (cfg : Config) (s : EvictFS M) (b : Backing)
    (now : Int) (name : String) : EvictFS M × Backing × Bool :=
  if cfg.maxAge ≤ 0 then (s, b, false)
  else
    match regGet s.files name with
    | none => (s, b, false)
    | some id =>
      if now - P.accessTime (s.store id).metadata ≤ cfg.maxAge then (s, b, false)
      else
        let s1 := removeFileLocked P s id
        let b1 := (bremove b name).1
        (s1, b1, true)

/-- evictCond is the guard of the eviction loop:
`(MaxFiles > 0 && len(files) > MaxFiles) || (MaxSize > 0 && currentSize > MaxSize)`. -/
def evictCond {M : Type} (cfg : Config) (s : EvictFS M) : Bool :=
  (decide (0 < cfg.maxFiles) && decide (cfg.maxFiles < (s.files.length : Int))) ||
  (decide (0 < cfg.maxSize) && decide (cfg.maxSize < s.currentSize))

/-- evictOnce is the inner loop of `evictLoop` run on one wake: while a
bound is violated, `heap.Pop` the minimum, delete its registry entry,
subtract its size, then (lock released) `Remove` the popped path from
the backing store with the error discarded and iterate.  The popped
name doubles as Go's nothing-popped sentinel: an empty popped name
breaks the loop before the backing `Remove`.  The recursion is guarded
by a non-empty heap; Go instead panics if the guard holds with an empty
heap, a state the code comments rule out. -/
def evictOnce {M : Type} (P : Policy M) (cfg : Config) (s : EvictFS M) (b : Backing) :
    EvictFS M × Backing :=
  if h : evictCond cfg s = true ∧ 0 < s.pq.length then
    let r := heapPopGo P s
    let it := r.1.store r.2
    let s1 := { r.1 with
      files := regErase r.1.files it.name,
      currentSize := r.1.currentSize - P.size it.metadata }
    if it.name = "" then (s1, b)
    else evictOnce P cfg s1 (bremove b it.name).1
  else (s, b)
termination_by s.pq.length
decreasing_by
  show ((heapPopGo P s).1.pq.length < s.pq.length)
  rw [length_pq_heapPopGo]
  omega

/-- wake is one full cycle of the coordinator: consume a pending signal
(if any) and run the inner eviction loop. -/
def wake {M : Type} (P : Policy M) (cfg : Config) (s : EvictFS M) (b : Backing) :
    EvictFS M × Backing :=
  if s.sig then evictOnce P cfg { s with sig := false } b else (s, b)

/-- FsError distinguishes the NotExist-class error the expiration gate
raises (`fs.ErrNotExist`) from an error passed through from the backing
filesystem. -/
inductive FsError where
  | notExist
  | backend
deriving DecidableEq, Repr

/-- oRDONLY is `os.O_RDONLY`. -/
def oRDONLY : Nat := 0

/-- oRDWR is `os.O_RDWR`. -/
def oRDWR : Nat := 2

/-- oCREATE is `os.O_CREATE`. -/
def oCREATE : Nat := 64

/-- oTRUNC is `os.O_TRUNC`. -/
def oTRUNC : Nat := 512

/-- bopenFile is the backing `OpenFile`: with `O_CREATE` the entry is
created (or truncated) with the environment-supplied info `newFi`;
without it the call succeeds exactly when the entry exists. -/
def bopenFile (b : Backing) (name : String) (flag : Nat) (newFi : FileInfo) :
    Backing × Bool :=
  if flag &&& oCREATE ≠ 0 then (bsetEntry b name newFi, true)
  else (b, (bstat b name).isSome)

/-- matchPre is the prefix test of `RemoveAll`'s untracking loop:
`p == name || strings.HasPrefix(p, name+"/")`. -/
def matchPre (p name : String) : Bool :=
  (p = name : Bool) || (name ++ "/").isPrefixOf p

/-- bremoveAll is the backing `RemoveAll`: drop every entry at or below
`name`, failing on the paths listed in `failRemove`. -/
def bremoveAll (b : Backing) (name : String) : Backing × Bool :=
  if name ∈ b.failRemove then (b, false)
  else ({ b with entries := b.entries.filter (fun kv => !matchPre kv.1 name) }, true)

/-- brename is the backing `Rename`: move the entry, failing when the
source is missing. -/
def brename (b : Backing) (oldname newname : String) : Backing × Bool :=
  match bstat b oldname with
  | some fi =>
    (bsetEntry { b with entries := b.entries.filter (fun kv => !(kv.1 = oldname : Bool)) }
      newname fi, true)
  | none => (b, false)

/-- openFileOp is `filesystem.OpenFile`: the expiration gate runs only
when `O_CREATE` is absent from `flag`; then the backing open, and on
success a touch of the path. -/
def openFileOp {M : Type} (P : Policy M) (cfg : Config) (s : EvictFS M) (b : Backing)
    (now : Int) (name : String) (flag : Nat) (newFi : FileInfo) :
    EvictFS M × Backing × Option FsError :=
  let g := if flag &&& oCREATE = 0 then checkExpired P cfg s b now name else (s, b, false)
  if g.2.2 then (g.1, g.2.1, some FsError.notExist)
  else
    let br := bopenFile g.2.1 name flag newFi
    if br.2 then (touch P g.1 name (bstat br.1 name), br.1, none)
    else (g.1, br.1, some FsError.backend)

/-- openOp is `filesystem.Open`: an expiration gate followed by
`OpenFile` with `O_RDONLY`. -/
def openOp {M : Type} (P : Policy M) (cfg : Config) (s : EvictFS M) (b : Backing)
    (now : Int) (name : String) : EvictFS M × Backing × Option FsError :=
  let g := checkExpired P cfg s b now name
  if g.2.2 then (g.1, g.2.1, some FsError.notExist)
  else openFileOp P cfg g.1 g.2.1 now name oRDONLY { size := 0, atime := 0, isDir := false }

/-- createOp is `filesystem.Create`: `OpenFile` with
`O_RDWR|O_CREATE|O_TRUNC` and mode 0666. -/
def createOp {M : Type} (P : Policy M) (cfg : Config) (s : EvictFS M) (b : Backing)
    (now : Int) (name : String) (newFi : FileInfo) : EvictFS M × Backing × Option FsError :=
  openFileOp P cfg s b now name (oRDWR ||| oCREATE ||| oTRUNC) newFi

/-- removeOp is `filesystem.Remove`: backing remove first; on success
the path is untracked if it was tracked. -/
def removeOp {M : Type} (P : Policy M) (s : EvictFS M) (b : Backing) (name : String) :
    EvictFS M × Backing × Option FsError :=
  let br := bremove b name
  if br.2 then
    match regGet s.files name with
    | some id => (removeFileLocked P s id, br.1, none)
    | none => (s, br.1, none)
  else (s, br.1, some FsError.backend)

/-- readFileOp is `filesystem.ReadFile`: expiration gate, backing read
(success iff the entry exists), touch on success. -/
def readFileOp {M : Type} (P : Policy M) (cfg : Config) (s : EvictFS M) (b : Backing)
    (now : Int) (name : String) : EvictFS M × Backing × Option FsError :=
  let g := checkExpired P cfg s b now name
  if g.2.2 then (g.1, g.2.1, some FsError.notExist)
  else if (bstat g.2.1 name).isSome then
    (touch P g.1 name (bstat g.2.1 name), g.2.1, none)
  else (g.1, g.2.1, some FsError.backend)

/-- statOp is `filesystem.Stat`: expiration gate, backing stat, touch on
success. -/
def statOp {M : Type} (P : Policy M) (cfg : Config) (s : EvictFS M) (b : Backing)
    (now : Int) (name : String) : EvictFS M × Backing × Option FsError :=
  let g := checkExpired P cfg s b now name
  if g.2.2 then (g.1, g.2.1, some FsError.notExist)
  else if (bstat g.2.1 name).isSome then
    (touch P g.1 name (bstat g.2.1 name), g.2.1, none)
  else (g.1, g.2.1, some FsError.backend)

/-- readDirOp is `filesystem.ReadDir`: a pure delegation; the backing
result `res` is returned unchanged and the index is untouched. -/
def readDirOp {M : Type} (s : EvictFS M) (b : Backing) (name : String) (res : Bool) :
    EvictFS M × Backing × Bool :=
  (s, b, res)

/-- mkdirOp is `filesystem.Mkdir`: a pure delegation. -/
def mkdirOp {M : Type} (s : EvictFS M) (b : Backing) (name : String) (perm : Nat)
    (res : Bool) : EvictFS M × Backing × Bool :=
  (s, b, res)

/-- mkdirAllOp is `filesystem.MkdirAll`: a pure delegation. -/
def mkdirAllOp {M : Type} (s : EvictFS M) (b : Backing) (name : String) (perm : Nat)
    (res : Bool) : EvictFS M × Backing × Bool :=
  (s, b, res)

/-- readLinkOp is `filesystem.ReadLink`: a pure delegation. -/
def readLinkOp {M : Type} (s : EvictFS M) (b : Backing) (name : String)
    (res : Option String) : EvictFS M × Backing × Option String :=
  (s, b, res)

/-- removeAllLocked is the untracking loop of `RemoveAll`: every tracked
path equal to `name` or below `name/` is removed via `removeFileLocked`.
Go iterates the map in unspecified order; the model walks the registry
list in order, one admissible schedule (the set of removed entries and
the preserved invariants do not depend on the order). -/
def removeAllLocked {M : Type} (P : Policy M) (s : EvictFS M) (name : String) : EvictFS M :=
  (s.files.filter (fun kv => matchPre kv.1 name)).foldl
    (fun st kv => removeFileLocked P st kv.2) s

/-- removeAllOp is `filesystem.RemoveAll`: backing recursive remove; on
success the prefix-matching untracking loop runs. -/
def removeAllOp {M : Type} (P : Policy M) (s : EvictFS M) (b : Backing) (name : String) :
    EvictFS M × Backing × Option FsError :=
  let br := bremoveAll b name
  if br.2 then (removeAllLocked P s name, br.1, none)
  else (s, br.1, some FsError.backend)

/-- renameOp is `filesystem.Rename`: expiration gate on the source path
only; on backing success the source is untracked and the destination is
touched. -/
def renameOp {M : Type} (P : Policy M) (cfg : Config) (s : EvictFS M) (b : Backing)
    (now : Int) (oldname newname : String) : EvictFS M × Backing × Option FsError :=
  let g := checkExpired P cfg s b now oldname
  if g.2.2 then (g.1, g.2.1, some FsError.notExist)
  else
    let br := brename g.2.1 oldname newname
    if br.2 then
      let s1 :=
        match regGet g.1.files oldname with
        | some id => removeFileLocked P g.1 id
        | none => g.1
      (touch P s1 newname (bstat br.1 newname), br.1, none)
    else (g.1, br.1, some FsError.backend)

/-- symlinkOp is `filesystem.Symlink`: no expiration gate in the code;
backing symlink (success flag `ok`, created link info `fi`), then a
touch of the new name on success. -/
def symlinkOp {M : Type} (P : Policy M) (s : EvictFS M) (b : Backing)
    (oldname newname : String) (fi : FileInfo) (ok : Bool) :
    EvictFS M × Backing × Option FsError :=
  if ok then
    let b1 := bsetEntry b newname fi
    (touch P s newname (bstat b1 newname), b1, none)
  else (s, b, some FsError.backend)

/-- lstatOp is `filesystem.Lstat`: expiration gate, backing lstat
(success iff the entry exists), touch on success. -/
def lstatOp {M : Type} (P : Policy M) (cfg : Config) (s : EvictFS M) (b : Backing)
    (now : Int) (name : String) : EvictFS M × Backing × Option FsError :=
  let g := checkExpired P cfg s b now name
  if g.2.2 then (g.1, g.2.1, some FsError.notExist)
  else if (bstat g.2.1 name).isSome then
    (touch P g.1 name (bstat g.2.1 name), g.2.1, none)
  else (g.1, g.2.1, some FsError.backend)

/-- lchownOp is `filesystem.Lchown`: expiration gate, backing lchown
(success flag `ok`), touch on success. -/
def lchownOp {M : Type} (P : Policy M) (cfg : Config) (s : EvictFS M) (b : Backing)
    (now : Int) (name owner group : String) (ok : Bool) :
    EvictFS M × Backing × Option FsError :=
  let g := checkExpired P cfg s b now name
  if g.2.2 then (g.1, g.2.1, some FsError.notExist)
  else if ok then (touch P g.1 name (bstat g.2.1 name), g.2.1, none)
  else (g.1, g.2.1, some FsError.backend)

/-- truncateOp is `filesystem.Truncate`: expiration gate, backing
truncate (success flag `ok`), touch on success. -/
def truncateOp {M : Type} (P : Policy M) (cfg : Config) (s : EvictFS M) (b : Backing)
    (now : Int) (name : String) (size : Int) (ok : Bool) :
    EvictFS M × Backing × Option FsError :=
  let g := checkExpired P cfg s b now name
  if g.2.2 then (g.1, g.2.1, some FsError.notExist)
  else if ok then (touch P g.1 name (bstat g.2.1 name), g.2.1, none)
  else (g.1, g.2.1, some FsError.backend)

/-- bwriteFile is the backing `WriteFile`: on success the entry takes
the environment-supplied resulting info `fi`. -/
def bwriteFile (b : Backing) (name : String) (fi : FileInfo) (ok : Bool) :
    Backing × Bool :=
  if ok then (bsetEntry b name fi, true) else (b, false)

/-- writeFileOp is `filesystem.WriteFile`: no expiration gate in the
code; backing whole-file write, then a touch on success. -/
def writeFileOp {M : Type} (P : Policy M) (s : EvictFS M) (b : Backing) (name : String)
    (fi : FileInfo) (ok : Bool) : EvictFS M × Backing × Option FsError :=
  let br := bwriteFile b name fi ok
  if br.2 then (touch P s name (bstat br.1 name), br.1, none)
  else (s, br.1, some FsError.backend)

/-- chownOp is `filesystem.Chown`: expiration gate, backing chown
(success flag `ok`), touch on success. -/
def chownOp {M : Type} (P : Policy M) (cfg : Config) (s : EvictFS M) (b : Backing)
    (now : Int) (name owner group : String) (ok : Bool) :
    EvictFS M × Backing × Option FsError :=
  let g := checkExpired P cfg s b now name
  if g.2.2 then (g.1, g.2.1, some FsError.notExist)
  else if ok then (touch P g.1 name (bstat g.2.1 name), g.2.1, none)
  else (g.1, g.2.1, some FsError.backend)

/-- chmodOp is `filesystem.Chmod`: expiration gate, backing chmod
(success flag `ok`), touch on success. -/
def chmodOp {M : Type} (P : Policy M) (cfg : Config) (s : EvictFS M) (b : Backing)
    (now : Int) (name : String) (mode : Nat) (ok : Bool) :
    EvictFS M × Backing × Option FsError :=
  let g := checkExpired P cfg s b now name
  if g.2.2 then (g.1, g.2.1, some FsError.notExist)
  else if ok then (touch P g.1 name (bstat g.2.1 name), g.2.1, none)
  else (g.1, g.2.1, some FsError.backend)

/-- chtimesOp is `filesystem.Chtimes`: expiration gate, backing chtimes
(success flag `ok`), touch on success. -/
def chtimesOp {M : Type} (P : Policy M) (cfg : Config) (s : EvictFS M) (b : Backing)
    (now : Int) (name : String) (atv mtv : Int) (ok : Bool) :
    EvictFS M × Backing × Option FsError :=
  let g := checkExpired P cfg s b now name
  if g.2.2 then (g.1, g.2.1, some FsError.notExist)
  else if ok then (touch P g.1 name (bstat g.2.1 name), g.2.1, none)
  else (g.1, g.2.1, some FsError.backend)

/-- fileWriteOp is `evictFile.Write`: the wrapped handle forwards to the
backing file (reported byte count `n`, error flag `werr`) and re-touches
the owning path whenever `n > 0`, even if `werr` is set. -/
def fileWriteOp {M : Type} (P : Policy M) (s : EvictFS M) (b : Backing) (name : String)
    (n : Int) (werr : Bool) : EvictFS M × Int × Bool :=
  let s1 := if 0 < n then touch P s name (bstat b name) else s
  (s1, n, werr)

/-- fileTruncateOp is `evictFile.Truncate`: the wrapped handle forwards
to the backing file (error flag `terr`) and re-touches the owning path
only when the call succeeded. -/
def fileTruncateOp {M : Type} (P : Policy M) (s : EvictFS M) (b : Backing) (name : String)
    (terr : Bool) : EvictFS M × Bool :=
  let s1 := if terr then s else touch P s name (bstat b name)
  (s1, terr)

/-- emptyState is the index state `New` builds before the initial scan:
empty registry, empty heap, zero size, no pending signal. -/
def emptyState {M : Type} (m0 : M) : EvictFS M :=
  { files := [], store := fun _ => { name := "", metadata := m0, index := 0 },
    pq := [], currentSize := 0, sig := false, nextId := 0 }

/-- mkInfo builds a plain (non-directory) FileInfo with the given size
and access time. -/
def mkInfo (sz t : Int) : FileInfo :=
  { size := sz, atime := t, isDir := false }

/-- emptyB is an empty backing store with no failing removals. -/
def emptyB : Backing :=
  { entries := [], failRemove := [] }

/-- lruState0 is the freshly constructed index over the default LRU
policy, as `New` builds it over an empty backing filesystem. -/
def lruState0 : EvictFS FileInfo :=
  emptyState (mkInfo 0 0)

/-- cfgMax2 is Scenario B's configuration: MaxFiles = 2, other bounds off. -/
def cfgMax2 : Config :=
  { maxFiles := 2, maxSize := 0, maxAge := 0 }

/-- cfgMax1 is the configuration MaxFiles = 1 used to exercise the
eviction loop's empty-name sentinel. -/
def cfgMax1 : Config :=
  { maxFiles := 1, maxSize := 0, maxAge := 0 }

/-- cfgAge1 is the configuration MaxAge = 1 used to exercise the
expiration gate. -/
def cfgAge1 : Config :=
  { maxFiles := 0, maxSize := 0, maxAge := 1 }

/-- scB1 through scB4w script the spec's Scenario B against the model:
create "a" (access time 1), create "b" (access time 2), refresh "a" in
the backing store (the OS updating its atime) and stat it, create "c"
(access time 4), letting the coordinator settle after each signal. -/
def scB1 : EvictFS FileInfo × Backing × Option FsError :=
  createOp lruPolicy cfgMax2 lruState0 emptyB 0 "a" (mkInfo 10 1)

/-- scB1w is the coordinator settling after creating "a". -/
def scB1w : EvictFS FileInfo × Backing :=
  wake lruPolicy cfgMax2 scB1.1 scB1.2.1

/-- scB2 creates "b". -/
def scB2 : EvictFS FileInfo × Backing × Option FsError :=
  createOp lruPolicy cfgMax2 scB1w.1 scB1w.2 0 "b" (mkInfo 10 2)

/-- scB2w is the coordinator settling after creating "b". -/
def scB2w : EvictFS FileInfo × Backing :=
  wake lruPolicy cfgMax2 scB2.1 scB2.2.1

/-- scBenv is the environment refreshing "a"'s access time in the
backing store to 3, as the OS does on access. -/
def scBenv : Backing :=
  bsetEntry scB2w.2 "a" (mkInfo 10 3)

/-- scB3 is the facade stat of "a", which re-touches it. -/
def scB3 : EvictFS FileInfo × Backing × Option FsError :=
  statOp lruPolicy cfgMax2 scB2w.1 scBenv 0 "a"

/-- scB3w is the coordinator settling after the stat. -/
def scB3w : EvictFS FileInfo × Backing :=
  wake lruPolicy cfgMax2 scB3.1 scB3.2.1

/-- scB4 creates "c", pushing the count over MaxFiles = 2. -/
def scB4 : EvictFS FileInfo × Backing × Option FsError :=
  createOp lruPolicy cfgMax2 scB3w.1 scB3w.2 0 "c" (mkInfo 10 4)

/-- scB4w is the coordinator settling after creating "c": this wake must
evict exactly "b". -/
def scB4w : EvictFS FileInfo × Backing :=
  wake lruPolicy cfgMax2 scB4.1 scB4.2.1

/-- cexState is a well-formed index tracking three files where the
empty-string path "" is the LRU minimum at the heap root: the registry
is {""↦0, "x"↦1, "y"↦2}, the heap is [0, 1, 2]. -/
def cexState : EvictFS FileInfo :=
  { files := [("", 0), ("x", 1), ("y", 2)],
    store := fun k =>
      if k = 0 then { name := "", metadata := mkInfo 5 0, index := 0 }
      else if k = 1 then { name := "x", metadata := mkInfo 5 1, index := 1 }
      else if k = 2 then { name := "y", metadata := mkInfo 5 2, index := 2 }
      else { name := "", metadata := mkInfo 0 0, index := 0 },
    pq := [0, 1, 2], currentSize := 15, sig := false, nextId := 3 }

/-- cexBacking is the backing store matching cexState. -/
def cexBacking : Backing :=
  { entries := [("", mkInfo 5 0), ("x", mkInfo 5 1), ("y", mkInfo 5 2)],
    failRemove := [] }

/-- expState is a well-formed index tracking one file "p" whose last
access time 0 is far in the past. -/
def expState : EvictFS FileInfo :=
  { files := [("p", 0)],
    store := fun k =>
      if k = 0 then { name := "p", metadata := mkInfo 10 0, index := 0 }
      else { name := "", metadata := mkInfo 0 0, index := 0 },
    pq := [0], currentSize := 10, sig := false, nextId := 1 }

/-- expBacking is the backing store matching expState. -/
def expBacking : Backing :=
  { entries := [("p", mkInfo 10 0)], failRemove := [] }

theorem getD_cons_set_perm {α : Type} (d x : α) :
    ∀ (t : List α) (k : Nat), k < t.length → (t.getD k d :: t.set k x).Perm (x :: t) := by
  intro t
  induction t with
  | nil => intro k hk; simp at hk
  | cons y t ih =>
    intro k hk
    cases k with
    | zero => simpa using List.Perm.swap x y t
    | succ k =>
      have hk2 : k < t.length := by simpa using hk
      have h1 : (t.getD k d :: y :: t.set k x).Perm (y :: t.getD k d :: t.set k x) :=
        List.Perm.swap _ _ _
      have h2 : (y :: t.getD k d :: t.set k x).Perm (y :: x :: t) :=
        List.Perm.cons y (ih k hk2)
      have h3 : (y :: x :: t).Perm (x :: y :: t) := List.Perm.swap _ _ _
      simpa using (h1.trans h2).trans h3

theorem set_set_perm {α : Type} (d : α) :
    ∀ (l : List α) (i j : Nat), i < l.length → j < l.length →
      ((l.set i (l.getD j d)).set j (l.getD i d)).Perm l := by
  intro l
  induction l with
  | nil => intro i j hi; simp at hi
  | cons x t ih =>
    intro i j hi hj
    cases i with
    | zero =>
      cases j with
      | zero => simp
      | succ j =>
        have hj2 : j < t.length := by simpa using hj
        simpa using getD_cons_set_perm d x t j hj2
    | succ i =>
      have hi2 : i < t.length := by simpa using hi
      cases j with
      | zero =>
        have h := getD_cons_set_perm d x t i hi2
        simpa using h
      | succ j =>
        have hj2 : j < t.length := by simpa using hj
        simpa using List.Perm.cons x (ih i j hi2 hj2)

/-- HeapFrame relates a state to the result of a heap-internal
rearrangement: registry, size counter, signal, allocator, and every
item's name and metadata are untouched; only the arrangement of the
heap array (up to permutation) and the index back-pointers may change. -/
structure HeapFrame {M : Type} (s s' : EvictFS M) : Prop where
  files : s'.files = s.files
  currentSize : s'.currentSize = s.currentSize
  sig : s'.sig = s.sig
  nextId : s'.nextId = s.nextId
  name : ∀ id, (s'.store id).name = (s.store id).name
  metadata : ∀ id, (s'.store id).metadata = (s.store id).metadata
  perm : s'.pq.Perm s.pq

theorem heapFrame_refl {M : Type} (s : EvictFS M) : HeapFrame s s :=
  ⟨rfl, rfl, rfl, rfl, fun _ => rfl, fun _ => rfl, List.Perm.refl _⟩

theorem HeapFrame.comp {M : Type} {s1 s2 s3 : EvictFS M}
    (h1 : HeapFrame s1 s2) (h2 : HeapFrame s2 s3) : HeapFrame s1 s3 := by
  refine ⟨h2.files.trans h1.files, h2.currentSize.trans h1.currentSize,
    h2.sig.trans h1.sig, h2.nextId.trans h1.nextId,
    fun id => (h2.name id).trans (h1.name id),
    fun id => (h2.metadata id).trans (h1.metadata id),
    h2.perm.trans h1.perm⟩

theorem store_pqSwap_name {M : Type} (s : EvictFS M) (i j : Nat) (id : Nat) :
    ((pqSwap s i j).store id).name = (s.store id).name := by
  simp only [pqSwap, setStore]
  split <;> split <;> simp_all

theorem store_pqSwap_metadata {M : Type} (s : EvictFS M) (i j : Nat) (id : Nat) :
    ((pqSwap s i j).store id).metadata = (s.store id).metadata := by
  simp only [pqSwap, setStore]
  split <;> split <;> simp_all

theorem pqSwap_frame {M : Type} (s : EvictFS M) {i j : Nat}
    (hi : i < s.pq.length) (hj : j < s.pq.length) : HeapFrame s (pqSwap s i j) := by
  refine ⟨rfl, rfl, rfl, rfl, store_pqSwap_name s i j, store_pqSwap_metadata s i j, ?_⟩
  rw [pq_pqSwap]
  exact set_set_perm 0 s.pq i j hi hj

theorem heapUp_frame {M : Type} (P : Policy M) : ∀ (s : EvictFS M) (j : Nat),
    j < s.pq.length → HeapFrame s (heapUp P s j) := by
  intro s j
  induction s, j using heapUp.induct P with
  | case1 s j i h =>
    intro _
    rw [heapUp, dif_pos h]
    exact heapFrame_refl s
  | case2 s j i h ih =>
    intro hj
    have hij : i < j := by
      rcases Nat.eq_zero_or_pos j with h0 | h0
      · exact absurd (Or.inl (by simp only [i]; omega)) h
      · have : i ≠ j := fun he => h (Or.inl he)
        have : i ≤ j - 1 := by simp only [i]; omega
        omega
    have hi : i < s.pq.length := Nat.lt_trans hij hj
    have hsw := pqSwap_frame s hi hj
    have hlen : (pqSwap s i j).pq.length = s.pq.length := length_pq_pqSwap s i j
    rw [heapUp, dif_neg h]
    exact HeapFrame.comp hsw (ih (by omega))

theorem heapDownAux_frame {M : Type} (P : Policy M) : ∀ (s : EvictFS M) (i n : Nat),
    n ≤ s.pq.length → HeapFrame s (heapDownAux P s i n).1 := by
  intro s i n
  induction s, i, n using heapDownAux.induct P with
  | case1 s i n h j hl ih =>
    intro hn
    have hjj : (if (decide (2 * i + 2 < n) && pqLessB P s (2 * i + 2) (2 * i + 1)) = true
        then 2 * i + 2 else 2 * i + 1) = j := rfl
    have hij : i < j := by
      rw [← hjj]; split <;> omega
    have hjn : j < n := by
      rw [← hjj]
      split
      · rename_i hg
        simp only [Bool.and_eq_true, decide_eq_true_eq] at hg
        exact hg.1
      · exact h
    have hi : i < s.pq.length := by omega
    have hj2 : j < s.pq.length := by omega
    have hsw := pqSwap_frame s hi hj2
    have hlen : (pqSwap s i j).pq.length = s.pq.length := length_pq_pqSwap s i j
    rw [heapDownAux, dif_pos h]
    simp only [hjj]
    rw [if_pos hl]
    exact HeapFrame.comp hsw (ih (by omega))
  | case2 s i n h j hl =>
    intro _
    have hjj : (if (decide (2 * i + 2 < n) && pqLessB P s (2 * i + 2) (2 * i + 1)) = true
        then 2 * i + 2 else 2 * i + 1) = j := rfl
    rw [heapDownAux, dif_pos h]
    simp only [hjj]
    rw [if_neg hl]
    exact heapFrame_refl s
  | case3 s i n h =>
    intro _
    rw [heapDownAux, dif_neg h]
    exact heapFrame_refl s

theorem heapFixGo_frame {M : Type} (P : Policy M) (s : EvictFS M) (i : Nat)
    (hi : i < s.pq.length) : HeapFrame s (heapFixGo P s i) := by
  have hfr := heapDownAux_frame P s i s.pq.length (Nat.le_refl _)
  have hlen : (heapDownAux P s i s.pq.length).1.pq.length = s.pq.length :=
    length_pq_heapDownAux P s i s.pq.length
  have hdef : heapFixGo P s i =
      (if (decide (i < (heapDownAux P s i s.pq.length).2)) = true
       then (heapDownAux P s i s.pq.length).1
       else heapUp P (heapDownAux P s i s.pq.length).1 i) := rfl
  rw [hdef]
  split
  · exact hfr
  · exact HeapFrame.comp hfr (heapUp_frame P _ i (by omega))

theorem store_pqSwap {M : Type} (s : EvictFS M) (i j id : Nat) :
    (pqSwap s i j).store id =
      if id = pqGet s i then { s.store id with index := (j : Int) }
      else if id = pqGet s j then { s.store id with index := (i : Int) }
      else s.store id := by
  simp only [pqSwap, setStore]
  by_cases h1 : id = pqGet s i <;> by_cases h2 : id = pqGet s j <;> simp_all

theorem pq_getD_pqSwap {M : Type} (s : EvictFS M) {i j : Nat} (hi : i < s.pq.length)
    (hj : j < s.pq.length) (k : Nat) :
    (pqSwap s i j).pq.getD k 0 =
      if k = j then pqGet s i else if k = i then pqGet s j else s.pq.getD k 0 := by
  rw [pq_pqSwap]
  simp only [List.getD_eq_getElem?_getD]
  by_cases hkj : k = j
  · subst hkj
    rw [List.getElem?_set_eq (by simpa using hj)]
    simp
  · rw [List.getElem?_set_ne (fun he => hkj he.symm)]
    by_cases hki : k = i
    · subst hki
      rw [List.getElem?_set_eq hi]
      simp [pqGet, List.getD_eq_getElem?_getD, hkj]
    · rw [List.getElem?_set_ne (fun he => hki he.symm)]
      simp [hkj, hki]

theorem pq_getD_pqSwap_ge {M : Type} (s : EvictFS M) {i j k : Nat}
    (hik : i ≠ k) (hjk : j ≠ k) :
    (pqSwap s i j).pq.getD k 0 = s.pq.getD k 0 := by
  rw [pq_pqSwap]
  simp only [List.getD_eq_getElem?_getD]
  rw [List.getElem?_set_ne hjk, List.getElem?_set_ne hik]

theorem pq_pqPush {M : Type} (s : EvictFS M) (id : Nat) :
    (pqPush s id).pq = s.pq ++ [id] := rfl

theorem files_pqPush {M : Type} (s : EvictFS M) (id : Nat) :
    (pqPush s id).files = s.files := rfl

theorem store_pqPush {M : Type} (s : EvictFS M) (id k : Nat) :
    (pqPush s id).store k =
      if k = id then { s.store id with index := (s.pq.length : Int) } else s.store k := rfl

theorem pq_pqPopRaw {M : Type} (s : EvictFS M) :
    (pqPopRaw s).1.pq = s.pq.dropLast := rfl

theorem snd_pqPopRaw {M : Type} (s : EvictFS M) :
    (pqPopRaw s).2 = s.pq.getD (s.pq.length - 1) 0 := rfl

theorem files_pqPopRaw {M : Type} (s : EvictFS M) :
    (pqPopRaw s).1.files = s.files := rfl

theorem currentSize_pqPopRaw {M : Type} (s : EvictFS M) :
    (pqPopRaw s).1.currentSize = s.currentSize := rfl

theorem store_pqPopRaw {M : Type} (s : EvictFS M) (k : Nat) :
    (pqPopRaw s).1.store k =
      if k = s.pq.getD (s.pq.length - 1) 0 then
        { s.store (s.pq.getD (s.pq.length - 1) 0) with index := -1 }
      else s.store k := rfl

/-- WFidx is the back-pointer invariant: every slot of the heap array
holds an item whose `index` field is that slot's position. -/
def WFidx {M : Type} (s : EvictFS M) : Prop :=
  ∀ k, k < s.pq.length → (s.store (s.pq.getD k 0)).index = (k : Int)

theorem getD_eq_getElem {α : Type} (l : List α) (d : α) {k : Nat} (hk : k < l.length) :
    l.getD k d = l[k] := by
  rw [List.getD_eq_getElem?_getD, List.getElem?_eq_getElem hk]
  rfl

theorem nodup_getD_inj {α : Type} [DecidableEq α] {l : List α} (hnd : l.Nodup) (d : α)
    {i j : Nat} (hi : i < l.length) (hj : j < l.length)
    (he : l.getD i d = l.getD j d) : i = j := by
  rw [getD_eq_getElem l d hi, getD_eq_getElem l d hj] at he
  exact (List.Nodup.getElem_inj_iff hnd).mp he

theorem wfidx_pqSwap {M : Type} {s : EvictFS M} (hw : WFidx s) (hnd : s.pq.Nodup)
    {i j : Nat} (hi : i < s.pq.length) (hj : j < s.pq.length) :
    WFidx (pqSwap s i j) := by
  intro k hk
  rw [length_pq_pqSwap] at hk
  rw [pq_getD_pqSwap s hi hj k, store_pqSwap]
  by_cases hkj : k = j
  · simp [hkj]
  · by_cases hki : k = i
    · have hne : ¬ pqGet s j = pqGet s i := by
        intro he
        have hji : j = i := nodup_getD_inj hnd 0 hj hi he
        exact hkj (by omega)
      rw [if_neg hkj, if_pos hki, if_neg hne, if_pos rfl]
      simp [hki]
    · have hne1 : ¬ s.pq.getD k 0 = pqGet s i := fun he =>
        hki (nodup_getD_inj hnd 0 hk hi he)
      have hne2 : ¬ s.pq.getD k 0 = pqGet s j := fun he =>
        hkj (nodup_getD_inj hnd 0 hk hj he)
      rw [if_neg hkj, if_neg hki, if_neg hne1, if_neg hne2]
      exact hw k hk

theorem wfidx_heapUp {M : Type} (P : Policy M) : ∀ (s : EvictFS M) (j : Nat),
    WFidx s → s.pq.Nodup → j < s.pq.length → WFidx (heapUp P s j) := by
  intro s j
  induction s, j using heapUp.induct P with
  | case1 s j i h =>
    intro hw _ _
    rw [heapUp, dif_pos h]
    exact hw
  | case2 s j i h ih =>
    intro hw hnd hj
    have hij : i < j := by
      rcases Nat.eq_zero_or_pos j with h0 | h0
      · exact absurd (Or.inl (by simp only [i]; omega)) h
      · have h1 : i ≠ j := fun he => h (Or.inl he)
        have h2 : i ≤ j - 1 := by simp only [i]; omega
        omega
    have hi : i < s.pq.length := Nat.lt_trans hij hj
    rw [heapUp, dif_neg h]
    refine ih (wfidx_pqSwap hw hnd hi hj) ?_ ?_
    · exact ((pqSwap_frame s hi hj).perm.nodup_iff).mpr hnd
    · rw [length_pq_pqSwap]; omega

theorem wfidx_heapDownAux {M : Type} (P : Policy M) : ∀ (s : EvictFS M) (i n : Nat),
    WFidx s → s.pq.Nodup → n ≤ s.pq.length → WFidx (heapDownAux P s i n).1 := by
  intro s i n
  induction s, i, n using heapDownAux.induct P with
  | case1 s i n h j hl ih =>
    intro hw hnd hn
    have hjj : (if (decide (2 * i + 2 < n) && pqLessB P s (2 * i + 2) (2 * i + 1)) = true
        then 2 * i + 2 else 2 * i + 1) = j := rfl
    have hij : i < j := by rw [← hjj]; split <;> omega
    have hjn : j < n := by
      rw [← hjj]
      split
      · rename_i hg
        simp only [Bool.and_eq_true, decide_eq_true_eq] at hg
        exact hg.1
      · exact h
    have hi : i < s.pq.length := by omega
    have hj2 : j < s.pq.length := by omega
    rw [heapDownAux, dif_pos h]
    simp only [hjj]
    rw [if_pos hl]
    refine ih (wfidx_pqSwap hw hnd hi hj2) ?_ ?_
    · exact ((pqSwap_frame s hi hj2).perm.nodup_iff).mpr hnd
    · rw [length_pq_pqSwap]; omega
  | case2 s i n h j hl =>
    intro hw _ _
    have hjj : (if (decide (2 * i + 2 < n) && pqLessB P s (2 * i + 2) (2 * i + 1)) = true
        then 2 * i + 2 else 2 * i + 1) = j := rfl
    rw [heapDownAux, dif_pos h]
    simp only [hjj]
    rw [if_neg hl]
    exact hw
  | case3 s i n h =>
    intro hw _ _
    rw [heapDownAux, dif_neg h]
    exact hw

theorem wfidx_pqPush {M : Type} {s : EvictFS M} (hw : WFidx s) {id : Nat}
    (hid : id ∉ s.pq) : WFidx (pqPush s id) := by
  intro k hk
  simp only [pqPush] at hk ⊢
  rw [List.length_append] at hk
  by_cases hkl : k < s.pq.length
  · have hgd : ((setStore s id { s.store id with index := (s.pq.length : Int) }).pq
        ++ [id]).getD k 0 = s.pq.getD k 0 := by
      rw [List.getD_eq_getElem?_getD, List.getElem?_append_left (by simpa using hkl),
        pq_setStore, ← List.getD_eq_getElem?_getD]
    rw [hgd]
    have hmem : s.pq.getD k 0 ∈ s.pq := by
      rw [getD_eq_getElem _ 0 hkl]
      exact List.getElem_mem hkl
    have hne : s.pq.getD k 0 ≠ id := fun he => hid (he ▸ hmem)
    show ((setStore s id _).store (s.pq.getD k 0)).index = (k : Int)
    simp only [setStore]
    rw [if_neg hne]
    exact hw k hkl
  · have hkeq : k = s.pq.length := by
      simp only [pq_setStore, List.length_singleton] at hk
      omega
    subst hkeq
    have hgd : ((setStore s id { s.store id with index := (s.pq.length : Int) }).pq
        ++ [id]).getD s.pq.length 0 = id := by
      rw [List.getD_eq_getElem?_getD, pq_setStore,
        List.getElem?_append_right (Nat.le_refl _)]
      simp
    rw [hgd]
    show ((setStore s id _).store id).index = _
    simp [setStore]

theorem wfidx_pqPopRaw {M : Type} {s : EvictFS M} (hw : WFidx s) (hnd : s.pq.Nodup) :
    WFidx (pqPopRaw s).1 := by
  intro k hk
  rw [pq_pqPopRaw] at hk ⊢
  have hlen : s.pq.dropLast.length = s.pq.length - 1 := List.length_dropLast _
  have hk2 : k < s.pq.length - 1 := by omega
  have hk3 : k < s.pq.length := by omega
  have hgd : s.pq.dropLast.getD k 0 = s.pq.getD k 0 := by
    rw [getD_eq_getElem _ 0 hk, List.getElem_dropLast, ← getD_eq_getElem _ 0 hk3]
  rw [hgd, store_pqPopRaw]
  have hne : s.pq.getD k 0 ≠ s.pq.getD (s.pq.length - 1) 0 := by
    intro he
    have := nodup_getD_inj hnd 0 hk3 (by omega) he
    omega
  rw [if_neg hne]
  exact hw k hk3

theorem heapUp_getD_ge {M : Type} (P : Policy M) : ∀ (s : EvictFS M) (j k : Nat),
    j < k → (heapUp P s j).pq.getD k 0 = s.pq.getD k 0 := by
  intro s j
  induction s, j using heapUp.induct P with
  | case1 s j i h =>
    intro k _
    rw [heapUp, dif_pos h]
  | case2 s j i h ih =>
    intro k hk
    have hij : i < j := by
      rcases Nat.eq_zero_or_pos j with h0 | h0
      · exact absurd (Or.inl (by simp only [i]; omega)) h
      · have h1 : i ≠ j := fun he => h (Or.inl he)
        have h2 : i ≤ j - 1 := by simp only [i]; omega
        omega
    rw [heapUp, dif_neg h, ih k (by omega), pq_getD_pqSwap_ge s (by omega) (by omega)]

theorem heapDownAux_getD_ge {M : Type} (P : Policy M) : ∀ (s : EvictFS M) (i n k : Nat),
    n ≤ k → (heapDownAux P s i n).1.pq.getD k 0 = s.pq.getD k 0 := by
  intro s i n
  induction s, i, n using heapDownAux.induct P with
  | case1 s i n h j hl ih =>
    intro k hk
    have hjj : (if (decide (2 * i + 2 < n) && pqLessB P s (2 * i + 2) (2 * i + 1)) = true
        then 2 * i + 2 else 2 * i + 1) = j := rfl
    have hij : i < j := by rw [← hjj]; split <;> omega
    have hjn : j < n := by
      rw [← hjj]
      split
      · rename_i hg
        simp only [Bool.and_eq_true, decide_eq_true_eq] at hg
        exact hg.1
      · exact h
    rw [heapDownAux, dif_pos h]
    simp only [hjj]
    rw [if_pos hl, ih k hk, pq_getD_pqSwap_ge s (by omega) (by omega)]
  | case2 s i n h j hl =>
    intro k _
    have hjj : (if (decide (2 * i + 2 < n) && pqLessB P s (2 * i + 2) (2 * i + 1)) = true
        then 2 * i + 2 else 2 * i + 1) = j := rfl
    rw [heapDownAux, dif_pos h]
    simp only [hjj]
    rw [if_neg hl]
  | case3 s i n h =>
    intro k _
    rw [heapDownAux, dif_neg h]

theorem name_pqPopRaw {M : Type} (s : EvictFS M) (id : Nat) :
    ((pqPopRaw s).1.store id).name = (s.store id).name := by
  rw [store_pqPopRaw]
  split
  · rename_i he
    rw [he]
  · rfl

theorem metadata_pqPopRaw {M : Type} (s : EvictFS M) (id : Nat) :
    ((pqPopRaw s).1.store id).metadata = (s.store id).metadata := by
  rw [store_pqPopRaw]
  split
  · rename_i he
    rw [he]
  · rfl

theorem heapPopGo_spec {M : Type} (P : Policy M) (s : EvictFS M)
    (hlen : 0 < s.pq.length) (hw : WFidx s) (hnd : s.pq.Nodup) :
    (heapPopGo P s).2 = pqGet s 0 ∧
    (heapPopGo P s).1.files = s.files ∧
    (heapPopGo P s).1.currentSize = s.currentSize ∧
    (heapPopGo P s).1.sig = s.sig ∧
    (heapPopGo P s).1.nextId = s.nextId ∧
    (∀ id, ((heapPopGo P s).1.store id).name = (s.store id).name) ∧
    (∀ id, ((heapPopGo P s).1.store id).metadata = (s.store id).metadata) ∧
    (pqGet s 0 :: (heapPopGo P s).1.pq).Perm s.pq ∧
    WFidx (heapPopGo P s).1 ∧
    ((heapPopGo P s).1.store (pqGet s 0)).index = -1 := by
  have hn : s.pq.length - 1 < s.pq.length := by omega
  have hfr1 : HeapFrame s (pqSwap s 0 (s.pq.length - 1)) := pqSwap_frame s hlen hn
  have hlen1 : (pqSwap s 0 (s.pq.length - 1)).pq.length = s.pq.length :=
    length_pq_pqSwap s 0 (s.pq.length - 1)
  have hfr2 : HeapFrame (pqSwap s 0 (s.pq.length - 1))
      (heapDownAux P (pqSwap s 0 (s.pq.length - 1)) 0 (s.pq.length - 1)).1 :=
    heapDownAux_frame P _ 0 (s.pq.length - 1) (by omega)
  have hfr : HeapFrame s
      (heapDownAux P (pqSwap s 0 (s.pq.length - 1)) 0 (s.pq.length - 1)).1 :=
    HeapFrame.comp hfr1 hfr2
  have hlen2 : (heapDownAux P (pqSwap s 0 (s.pq.length - 1)) 0 (s.pq.length - 1)).1.pq.length
      = s.pq.length := by
    rw [length_pq_heapDownAux, hlen1]
  have hroot : (heapDownAux P (pqSwap s 0 (s.pq.length - 1)) 0
      (s.pq.length - 1)).1.pq.getD (s.pq.length - 1) 0 = pqGet s 0 := by
    rw [heapDownAux_getD_ge P _ 0 (s.pq.length - 1) (s.pq.length - 1) (Nat.le_refl _),
      pq_getD_pqSwap s hlen hn, if_pos rfl]
  have hdef : heapPopGo P s =
      pqPopRaw (heapDownAux P (pqSwap s 0 (s.pq.length - 1)) 0 (s.pq.length - 1)).1 := rfl
  have hsnd : (heapPopGo P s).2 = pqGet s 0 := by
    rw [hdef, snd_pqPopRaw, hlen2, hroot]
  have hnd2 : (heapDownAux P (pqSwap s 0 (s.pq.length - 1)) 0
      (s.pq.length - 1)).1.pq.Nodup := hfr.perm.nodup_iff.mpr hnd
  have hwf2 : WFidx (heapDownAux P (pqSwap s 0 (s.pq.length - 1)) 0 (s.pq.length - 1)).1 := by
    refine wfidx_heapDownAux P _ 0 (s.pq.length - 1) ?_ ?_ (by omega)
    · exact wfidx_pqSwap hw hnd hlen hn
    · exact hfr1.perm.nodup_iff.mpr hnd
  have hne2 : (heapDownAux P (pqSwap s 0 (s.pq.length - 1)) 0
      (s.pq.length - 1)).1.pq ≠ [] := by
    intro he
    rw [he] at hlen2
    simp at hlen2
    omega
  have hperm : (pqGet s 0 :: (heapPopGo P s).1.pq).Perm s.pq := by
    rw [hdef, pq_pqPopRaw]
    have hlast : (heapDownAux P (pqSwap s 0 (s.pq.length - 1)) 0
        (s.pq.length - 1)).1.pq.getLast hne2 = pqGet s 0 := by
      rw [List.getLast_eq_getElem, ← getD_eq_getElem _ 0 (by omega), hlen2, hroot]
    have hsplit : (heapDownAux P (pqSwap s 0 (s.pq.length - 1)) 0
        (s.pq.length - 1)).1.pq.dropLast ++ [pqGet s 0] =
        (heapDownAux P (pqSwap s 0 (s.pq.length - 1)) 0 (s.pq.length - 1)).1.pq := by
      rw [← hlast]
      exact List.dropLast_concat_getLast hne2
    have hp1 := List.perm_append_singleton (pqGet s 0)
      (heapDownAux P (pqSwap s 0 (s.pq.length - 1)) 0 (s.pq.length - 1)).1.pq.dropLast
    rw [hsplit] at hp1
    exact (hp1.symm).trans hfr.perm
  refine ⟨hsnd, ?_, ?_, ?_, ?_, ?_, ?_, hperm, ?_, ?_⟩
  · rw [hdef, files_pqPopRaw, hfr.files]
  · rw [hdef, currentSize_pqPopRaw, hfr.currentSize]
  · rw [hdef]
    exact hfr.sig
  · rw [hdef]
    exact hfr.nextId
  · intro id
    rw [hdef, name_pqPopRaw]
    exact hfr.name id
  · intro id
    rw [hdef, metadata_pqPopRaw]
    exact hfr.metadata id
  · rw [hdef]
    exact wfidx_pqPopRaw hwf2 hnd2
  · rw [hdef, store_pqPopRaw, hlen2, hroot, if_pos rfl]

theorem pqPopRaw_spec_of_frame {M : Type} {s0 s2 : EvictFS M} {x : Nat}
    (hfr : HeapFrame s0 s2) (hlen2 : s2.pq.length = s0.pq.length)
    (hpos : 0 < s0.pq.length)
    (hroot : s2.pq.getD (s0.pq.length - 1) 0 = x)
    (hwf2 : WFidx s2) (hnd2 : s2.pq.Nodup) :
    (pqPopRaw s2).2 = x ∧
    (pqPopRaw s2).1.files = s0.files ∧
    (pqPopRaw s2).1.currentSize = s0.currentSize ∧
    (pqPopRaw s2).1.sig = s0.sig ∧
    (pqPopRaw s2).1.nextId = s0.nextId ∧
    (∀ id, ((pqPopRaw s2).1.store id).name = (s0.store id).name) ∧
    (∀ id, ((pqPopRaw s2).1.store id).metadata = (s0.store id).metadata) ∧
    (x :: (pqPopRaw s2).1.pq).Perm s0.pq ∧
    WFidx (pqPopRaw s2).1 ∧
    ((pqPopRaw s2).1.store x).index = -1 := by
  have hsnd : (pqPopRaw s2).2 = x := by
    rw [snd_pqPopRaw, hlen2, hroot]
  have hne2 : s2.pq ≠ [] := by
    intro he
    rw [he] at hlen2
    simp at hlen2
    omega
  have hperm : (x :: (pqPopRaw s2).1.pq).Perm s0.pq := by
    rw [pq_pqPopRaw]
    have hlast : s2.pq.getLast hne2 = x := by
      rw [List.getLast_eq_getElem, ← getD_eq_getElem _ 0 (by omega)]
      rw [hlen2, hroot]
    have hsplit : s2.pq.dropLast ++ [x] = s2.pq := by
      rw [← hlast]
      exact List.dropLast_concat_getLast hne2
    have hp1 := List.perm_append_singleton x s2.pq.dropLast
    rw [hsplit] at hp1
    exact (hp1.symm).trans hfr.perm
  refine ⟨hsnd, ?_, ?_, ?_, ?_, ?_, ?_, hperm, ?_, ?_⟩
  · rw [files_pqPopRaw, hfr.files]
  · rw [currentSize_pqPopRaw, hfr.currentSize]
  · exact hfr.sig
  · exact hfr.nextId
  · intro id
    rw [name_pqPopRaw]
    exact hfr.name id
  · intro id
    rw [metadata_pqPopRaw]
    exact hfr.metadata id
  · exact wfidx_pqPopRaw hwf2 hnd2
  · rw [store_pqPopRaw, hlen2, hroot, if_pos rfl]

theorem heapRemoveGo_spec {M : Type} (P : Policy M) (s : EvictFS M) {i : Nat}
    (hi : i < s.pq.length) (hw : WFidx s) (hnd : s.pq.Nodup) :
    (heapRemoveGo P s i).2 = pqGet s i ∧
    (heapRemoveGo P s i).1.files = s.files ∧
    (heapRemoveGo P s i).1.currentSize = s.currentSize ∧
    (heapRemoveGo P s i).1.sig = s.sig ∧
    (heapRemoveGo P s i).1.nextId = s.nextId ∧
    (∀ id, ((heapRemoveGo P s i).1.store id).name = (s.store id).name) ∧
    (∀ id, ((heapRemoveGo P s i).1.store id).metadata = (s.store id).metadata) ∧
    (pqGet s i :: (heapRemoveGo P s i).1.pq).Perm s.pq ∧
    WFidx (heapRemoveGo P s i).1 ∧
    ((heapRemoveGo P s i).1.store (pqGet s i)).index = -1 := by
  by_cases hni : s.pq.length - 1 ≠ i
  · have hin : i < s.pq.length - 1 := by omega
    have hn : s.pq.length - 1 < s.pq.length := by omega
    have hdef : heapRemoveGo P s i =
        pqPopRaw (if (decide (i < (heapDownAux P (pqSwap s i (s.pq.length - 1)) i
            (s.pq.length - 1)).2)) = true
          then (heapDownAux P (pqSwap s i (s.pq.length - 1)) i (s.pq.length - 1)).1
          else heapUp P (heapDownAux P (pqSwap s i (s.pq.length - 1)) i
            (s.pq.length - 1)).1 i) := by
      show pqPopRaw (if s.pq.length - 1 ≠ i then
          (if (decide (i < (heapDownAux P (pqSwap s i (s.pq.length - 1)) i
              (s.pq.length - 1)).2)) = true
            then (heapDownAux P (pqSwap s i (s.pq.length - 1)) i (s.pq.length - 1)).1
            else heapUp P (heapDownAux P (pqSwap s i (s.pq.length - 1)) i
              (s.pq.length - 1)).1 i)
          else s) = _
      rw [if_pos hni]
    have hfr1 : HeapFrame s (pqSwap s i (s.pq.length - 1)) := pqSwap_frame s hi hn
    have hlen1 : (pqSwap s i (s.pq.length - 1)).pq.length = s.pq.length :=
      length_pq_pqSwap s i (s.pq.length - 1)
    have hfr2 : HeapFrame (pqSwap s i (s.pq.length - 1))
        (heapDownAux P (pqSwap s i (s.pq.length - 1)) i (s.pq.length - 1)).1 :=
      heapDownAux_frame P _ i (s.pq.length - 1) (by omega)
    have hfrd : HeapFrame s
        (heapDownAux P (pqSwap s i (s.pq.length - 1)) i (s.pq.length - 1)).1 :=
      HeapFrame.comp hfr1 hfr2
    have hlend : (heapDownAux P (pqSwap s i (s.pq.length - 1)) i
        (s.pq.length - 1)).1.pq.length = s.pq.length := by
      rw [length_pq_heapDownAux, hlen1]
    have hrootd : (heapDownAux P (pqSwap s i (s.pq.length - 1)) i
        (s.pq.length - 1)).1.pq.getD (s.pq.length - 1) 0 = pqGet s i := by
      rw [heapDownAux_getD_ge P _ i (s.pq.length - 1) (s.pq.length - 1) (Nat.le_refl _),
        pq_getD_pqSwap s hi hn, if_pos rfl]
    have hwfd : WFidx (heapDownAux P (pqSwap s i (s.pq.length - 1)) i
        (s.pq.length - 1)).1 := by
      refine wfidx_heapDownAux P _ i (s.pq.length - 1) ?_ ?_ (by omega)
      · exact wfidx_pqSwap hw hnd hi hn
      · exact hfr1.perm.nodup_iff.mpr hnd
    have hndd : (heapDownAux P (pqSwap s i (s.pq.length - 1)) i
        (s.pq.length - 1)).1.pq.Nodup := hfrd.perm.nodup_iff.mpr hnd
    rw [hdef]
    split
    · exact pqPopRaw_spec_of_frame hfrd hlend (by omega) hrootd hwfd hndd
    · have hfru : HeapFrame (heapDownAux P (pqSwap s i (s.pq.length - 1)) i
          (s.pq.length - 1)).1
          (heapUp P (heapDownAux P (pqSwap s i (s.pq.length - 1)) i
            (s.pq.length - 1)).1 i) :=
        heapUp_frame P _ i (by omega)
      refine pqPopRaw_spec_of_frame (HeapFrame.comp hfrd hfru) ?_ (by omega) ?_ ?_ ?_
      · rw [length_pq_heapUp, hlend]
      · rw [heapUp_getD_ge P _ i (s.pq.length - 1) hin, hrootd]
      · refine wfidx_heapUp P _ i hwfd hndd (by omega)
      · exact hfru.perm.nodup_iff.mpr hndd
  · have hieq : i = s.pq.length - 1 := by omega
    have hdef : heapRemoveGo P s i = pqPopRaw s := by
      show pqPopRaw (if s.pq.length - 1 ≠ i then
          (if (decide (i < (heapDownAux P (pqSwap s i (s.pq.length - 1)) i
              (s.pq.length - 1)).2)) = true
            then (heapDownAux P (pqSwap s i (s.pq.length - 1)) i (s.pq.length - 1)).1
            else heapUp P (heapDownAux P (pqSwap s i (s.pq.length - 1)) i
              (s.pq.length - 1)).1 i)
          else s) = pqPopRaw s
      rw [if_neg hni]
    rw [hdef]
    refine pqPopRaw_spec_of_frame (heapFrame_refl s) rfl (by omega) ?_ hw hnd
    rw [← hieq]
    rfl

theorem regGet_eq_none {l : List (String × Nat)} {name : String} :
    regGet l name = none ↔ name ∉ l.map Prod.fst := by
  induction l with
  | nil => simp [regGet]
  | cons kv t ih =>
    simp only [regGet, List.map_cons, List.mem_cons]
    by_cases h : kv.1 = name
    · simp [h]
    · simp only [if_neg h, ih]
      constructor
      · intro hn hc
        rcases hc with hc | hc
        · exact h hc.symm
        · exact hn hc
      · intro hn hc
        exact hn (Or.inr hc)

theorem regGet_mem {l : List (String × Nat)} {name : String} {id : Nat}
    (h : regGet l name = some id) : (name, id) ∈ l := by
  induction l with
  | nil => simp [regGet] at h
  | cons kv t ih =>
    simp only [regGet] at h
    by_cases hk : kv.1 = name
    · rw [if_pos hk] at h
      have h2 : kv.2 = id := by injection h
      have hkv : kv = (name, id) := by
        cases kv
        simp only at hk h2
        rw [hk, h2]
      rw [← hkv]
      exact List.mem_cons_self _ _
    · rw [if_neg hk] at h
      exact List.mem_cons_of_mem _ (ih h)

theorem regGet_of_mem {l : List (String × Nat)} (hnd : (l.map Prod.fst).Nodup)
    {name : String} {id : Nat} (h : (name, id) ∈ l) : regGet l name = some id := by
  induction l with
  | nil => simp at h
  | cons kv t ih =>
    simp only [List.map_cons, List.nodup_cons] at hnd
    rcases List.mem_cons.mp h with he | ht
    · rw [← he]
      simp [regGet]
    · have hk : kv.1 ≠ name := by
        intro hkk
        exact hnd.1 (hkk ▸ (List.mem_map.mpr ⟨(name, id), ht, rfl⟩))
      simp only [regGet, if_neg hk]
      exact ih hnd.2 ht

theorem regErase_of_not_mem {l : List (String × Nat)} {name : String}
    (h : name ∉ l.map Prod.fst) : regErase l name = l := by
  rw [regErase, List.filter_eq_self]
  intro kv hkv
  simp only [Bool.not_eq_eq_eq_not, Bool.not_true, decide_eq_false_iff_not]
  intro he
  exact h (List.mem_map.mpr ⟨kv, hkv, he⟩)

theorem regErase_sublist (l : List (String × Nat)) (name : String) :
    (regErase l name).Sublist l :=
  List.filter_sublist l

theorem perm_cons_regErase {l : List (String × Nat)} (hnd : (l.map Prod.fst).Nodup)
    {name : String} {id : Nat} (h : (name, id) ∈ l) :
    l.Perm ((name, id) :: regErase l name) := by
  induction l with
  | nil => simp at h
  | cons kv t ih =>
    simp only [List.map_cons, List.nodup_cons] at hnd
    rcases List.mem_cons.mp h with he | ht
    · subst he
      have h1 : regErase ((name, id) :: t) name = regErase t name := by
        simp [regErase, List.filter_cons]
      have h2 : regErase t name = t := by
        refine regErase_of_not_mem ?_
        simpa using hnd.1
      rw [h1, h2]
    · have hk : kv.1 ≠ name := by
        intro hkk
        exact hnd.1 (hkk ▸ (List.mem_map.mpr ⟨(name, id), ht, rfl⟩))
      have h1 : regErase (kv :: t) name = kv :: regErase t name := by
        simp only [regErase, List.filter_cons]
        rw [if_pos (by simpa using hk)]
      rw [h1]
      exact ((ih hnd.2 ht).cons kv).trans (List.Perm.swap _ _ _)

theorem regGet_regErase_self (l : List (String × Nat)) (name : String) :
    regGet (regErase l name) name = none := by
  rw [regGet_eq_none]
  intro hmem
  rcases List.mem_map.mp hmem with ⟨kv, hkv, hfst⟩
  have := List.of_mem_filter hkv
  simp [hfst] at this

theorem regGet_regErase_ne (l : List (String × Nat)) {ename name : String}
    (h : name ≠ ename) : regGet (regErase l ename) name = regGet l name := by
  induction l with
  | nil => rfl
  | cons kv t ih =>
    simp only [regErase, List.filter_cons]
    by_cases hk : kv.1 = ename
    · rw [if_neg (by simp [hk] : ¬ (!decide (kv.1 = ename)) = true)]
      have hkn : kv.1 ≠ name := fun he => h (he ▸ hk)
      rw [regErase] at ih
      rw [ih, regGet, if_neg hkn]
    · rw [if_pos (by simpa using hk : (!decide (kv.1 = ename)) = true)]
      rw [regErase] at ih
      simp only [regGet]
      rw [ih]

theorem regGet_regSet_self (l : List (String × Nat)) (name : String) (id : Nat) :
    regGet (regSet l name id) name = some id := by
  simp [regSet, regGet]

theorem regGet_regSet_ne (l : List (String × Nat)) {sname name : String} (id : Nat)
    (h : name ≠ sname) : regGet (regSet l sname id) name = regGet l name := by
  simp only [regSet, regGet]
  rw [if_neg (fun he => h he.symm), regGet_regErase_ne l h]

/-- WF is the structural invariant of the eviction index at quiescent
points: the registry and the heap hold exactly the same items (the
registry's ids are a permutation of the heap array), each registry
binding's key is its item's path, keys and heap entries are duplicate
free, every heap slot's item carries its own position in its `index`
field, and all live ids are below the allocator. -/
structure WF {M : Type} (s : EvictFS M) : Prop where
  perm : (s.files.map Prod.snd).Perm s.pq
  namesOk : ∀ kv ∈ s.files, (s.store kv.2).name = kv.1
  keysNodup : (s.files.map Prod.fst).Nodup
  pqNodup : s.pq.Nodup
  idx : WFidx s
  fresh : ∀ id ∈ s.pq, id < s.nextId

theorem WF.length_eq {M : Type} {s : EvictFS M} (hw : WF s) :
    s.files.length = s.pq.length := by
  have := hw.perm.length_eq
  simpa using this

theorem WF.idsNodup {M : Type} {s : EvictFS M} (hw : WF s) :
    (s.files.map Prod.snd).Nodup :=
  hw.perm.nodup_iff.mpr hw.pqNodup

theorem WF.mem_pq_of_tracked {M : Type} {s : EvictFS M} (hw : WF s) {name : String}
    {id : Nat} (h : regGet s.files name = some id) : id ∈ s.pq := by
  have hmem : (name, id) ∈ s.files := regGet_mem h
  exact hw.perm.mem_iff.mp (List.mem_map.mpr ⟨(name, id), hmem, rfl⟩)

theorem WF.tracked_pos {M : Type} {s : EvictFS M} (hw : WF s) {name : String}
    {id : Nat} (h : regGet s.files name = some id) :
    (s.store id).index.toNat < s.pq.length ∧
    s.pq.getD ((s.store id).index.toNat) 0 = id ∧ 0 ≤ (s.store id).index := by
  have hmem : id ∈ s.pq := hw.mem_pq_of_tracked h
  rcases List.getElem_of_mem hmem with ⟨k, hk, hke⟩
  have hgd : s.pq.getD k 0 = id := by
    rw [getD_eq_getElem _ 0 hk, hke]
  have hidx : (s.store id).index = (k : Int) := by
    have := hw.idx k hk
    rw [hgd] at this
    exact this
  rw [hidx]
  refine ⟨by simpa using hk, by simpa using hgd, by omega⟩

theorem WF.name_of_tracked {M : Type} {s : EvictFS M} (hw : WF s) {name : String}
    {id : Nat} (h : regGet s.files name = some id) : (s.store id).name = name :=
  hw.namesOk (name, id) (regGet_mem h)

theorem WF.lookup_of_mem_pq {M : Type} {s : EvictFS M} (hw : WF s) {id : Nat}
    (h : id ∈ s.pq) : regGet s.files ((s.store id).name) = some id := by
  have hmem : id ∈ s.files.map Prod.snd := hw.perm.mem_iff.mpr h
  rcases List.mem_map.mp hmem with ⟨kv, hkv, hsnd⟩
  have hname : (s.store id).name = kv.1 := by
    rw [← hsnd]
    exact hw.namesOk kv hkv
  rw [hname]
  have hkv2 : (kv.1, id) ∈ s.files := by
    have he : (kv.1, id) = kv := by
      cases kv
      simp only at hsnd
      rw [hsnd]
    rw [he]
    exact hkv
  exact regGet_of_mem hw.keysNodup hkv2

theorem wfidx_heapFixGo {M : Type} (P : Policy M) {s : EvictFS M} (hw : WFidx s)
    (hnd : s.pq.Nodup) {i : Nat} (hi : i < s.pq.length) : WFidx (heapFixGo P s i) := by
  have hwd := wfidx_heapDownAux P s i s.pq.length hw hnd (Nat.le_refl _)
  have hndd : (heapDownAux P s i s.pq.length).1.pq.Nodup :=
    (heapDownAux_frame P s i s.pq.length (Nat.le_refl _)).perm.nodup_iff.mpr hnd
  have hlen := length_pq_heapDownAux P s i s.pq.length
  have hdef : heapFixGo P s i = (if (decide (i < (heapDownAux P s i s.pq.length).2)) = true
      then (heapDownAux P s i s.pq.length).1
      else heapUp P (heapDownAux P s i s.pq.length).1 i) := rfl
  rw [hdef]
  split
  · exact hwd
  · exact wfidx_heapUp P _ i hwd hndd (by omega)

theorem removeFileLocked_spec {M : Type} (P : Policy M) {s : EvictFS M} {name : String}
    {id : Nat} (hw : WF s) (h : regGet s.files name = some id) :
    (removeFileLocked P s id).files = regErase s.files name ∧
    (removeFileLocked P s id).currentSize
      = s.currentSize - P.size ((s.store id).metadata) ∧
    (removeFileLocked P s id).sig = s.sig ∧
    (removeFileLocked P s id).nextId = s.nextId ∧
    (∀ k, ((removeFileLocked P s id).store k).name = (s.store k).name) ∧
    (∀ k, ((removeFileLocked P s id).store k).metadata = (s.store k).metadata) ∧
    (id :: (removeFileLocked P s id).pq).Perm s.pq ∧
    WF (removeFileLocked P s id) ∧
    ((removeFileLocked P s id).store id).index = -1 := by
  obtain ⟨hlt, hgd, hge0⟩ := hw.tracked_pos h
  have hname : (s.store id).name = name := hw.name_of_tracked h
  obtain ⟨hsnd, hfi, hcs, hsig, hnext, hnm, hmd, hperm, hwfi, hidx⟩ :=
    heapRemoveGo_spec P s hlt hw.idx hw.pqNodup
  have hpg : pqGet s ((s.store id).index.toNat) = id := hgd
  rw [hpg] at hsnd hperm hidx
  have hfiles : (removeFileLocked P s id).files = regErase s.files name := by
    show regErase (heapRemoveGo P s (s.store id).index.toNat).1.files (s.store id).name
      = regErase s.files name
    rw [hfi, hname]
  have hcs2 : (removeFileLocked P s id).currentSize
      = s.currentSize - P.size ((s.store id).metadata) := by
    show (heapRemoveGo P s (s.store id).index.toNat).1.currentSize
      - P.size ((s.store id).metadata) = _
    rw [hcs]
  have hpq2 : (removeFileLocked P s id).pq
      = (heapRemoveGo P s (s.store id).index.toNat).1.pq := rfl
  have hstore2 : (removeFileLocked P s id).store
      = (heapRemoveGo P s (s.store id).index.toNat).1.store := rfl
  have hperm2 : (id :: (removeFileLocked P s id).pq).Perm s.pq := by
    rw [hpq2]
    exact hperm
  have hwf : WF (removeFileLocked P s id) := by
    refine ⟨?_, ?_, ?_, ?_, ?_, ?_⟩
    · have hp1 : s.files.Perm ((name, id) :: regErase s.files name) :=
        perm_cons_regErase hw.keysNodup (regGet_mem h)
      have hp2 : (s.files.map Prod.snd).Perm
          (id :: (regErase s.files name).map Prod.snd) := by
        simpa using hp1.map Prod.snd
      have hp3 : (id :: (regErase s.files name).map Prod.snd).Perm
          (id :: (removeFileLocked P s id).pq) :=
        ((hp2.symm.trans hw.perm).trans hperm2.symm)
      rw [hfiles]
      exact hp3.cons_inv
    · intro kv hkv
      rw [hfiles] at hkv
      have hkv2 : kv ∈ s.files := List.mem_of_mem_filter hkv
      rw [hstore2, hnm kv.2]
      exact hw.namesOk kv hkv2
    · rw [hfiles]
      exact hw.keysNodup.sublist ((regErase_sublist s.files name).map Prod.fst)
    · have : (id :: (removeFileLocked P s id).pq).Nodup :=
        hperm2.nodup_iff.mpr hw.pqNodup
      exact (List.nodup_cons.mp this).2
    · intro k hk
      rw [hpq2] at hk ⊢
      rw [hstore2]
      exact hwfi k hk
    · intro i hi
      have hmem : i ∈ s.pq := hperm2.mem_iff.mp (List.mem_cons_of_mem _ hi)
      have hnx : (removeFileLocked P s id).nextId = s.nextId := by
        show (heapRemoveGo P s (s.store id).index.toNat).1.nextId = s.nextId
        exact hnext
      rw [hnx]
      exact hw.fresh i hmem
  refine ⟨hfiles, hcs2, ?_, ?_, ?_, ?_, hperm2, hwf, ?_⟩
  · show (heapRemoveGo P s (s.store id).index.toNat).1.sig = s.sig
    exact hsig
  · show (heapRemoveGo P s (s.store id).index.toNat).1.nextId = s.nextId
    exact hnext
  · intro k
    rw [hstore2]
    exact hnm k
  · intro k
    rw [hstore2]
    exact hmd k
  · rw [hstore2]
    exact hidx

theorem length_pq_pqPush {M : Type} (s : EvictFS M) (id : Nat) :
    (pqPush s id).pq.length = s.pq.length + 1 := by
  rw [pq_pqPush, List.length_append, List.length_singleton]

theorem heapPushGo_spec {M : Type} (P : Policy M) (t : EvictFS M) (id : Nat)
    (hwt : WFidx t) (hndt : t.pq.Nodup) (hidt : id ∉ t.pq) :
    (heapPushGo P t id).files = t.files ∧
    (heapPushGo P t id).currentSize = t.currentSize ∧
    (heapPushGo P t id).sig = t.sig ∧
    (heapPushGo P t id).nextId = t.nextId ∧
    ((heapPushGo P t id).store id).name = (t.store id).name ∧
    ((heapPushGo P t id).store id).metadata = (t.store id).metadata ∧
    (∀ k, k ≠ id → ((heapPushGo P t id).store k).name = (t.store k).name ∧
      ((heapPushGo P t id).store k).metadata = (t.store k).metadata) ∧
    (heapPushGo P t id).pq.Perm (id :: t.pq) ∧
    WFidx (heapPushGo P t id) := by
  have hlenP : (pqPush t id).pq.length = t.pq.length + 1 := length_pq_pqPush t id
  have hjlt : (pqPush t id).pq.length - 1 < (pqPush t id).pq.length := by omega
  have hfru : HeapFrame (pqPush t id) (heapUp P (pqPush t id) ((pqPush t id).pq.length - 1)) :=
    heapUp_frame P (pqPush t id) ((pqPush t id).pq.length - 1) hjlt
  have hndP : (pqPush t id).pq.Nodup := by
    rw [pq_pqPush]
    have h1 : (id :: t.pq).Nodup := List.nodup_cons.mpr ⟨hidt, hndt⟩
    exact (List.perm_append_singleton id t.pq).nodup_iff.mpr h1
  have hdef : heapPushGo P t id
      = heapUp P (pqPush t id) ((pqPush t id).pq.length - 1) := rfl
  rw [hdef]
  refine ⟨?_, ?_, ?_, ?_, ?_, ?_, ?_, ?_, ?_⟩
  · rw [hfru.files]
    rfl
  · rw [hfru.currentSize]
    rfl
  · rw [hfru.sig]
    rfl
  · rw [hfru.nextId]
    rfl
  · rw [hfru.name id, store_pqPush]
    simp
  · rw [hfru.metadata id, store_pqPush]
    simp
  · intro k hk
    constructor
    · rw [hfru.name k, store_pqPush, if_neg hk]
    · rw [hfru.metadata k, store_pqPush, if_neg hk]
  · refine hfru.perm.trans ?_
    rw [pq_pqPush]
    exact List.perm_append_singleton id t.pq
  · refine wfidx_heapUp P (pqPush t id) ((pqPush t id).pq.length - 1) ?_ hndP hjlt
    exact wfidx_pqPush hwt hidt

theorem addFileLocked_spec {M : Type} (P : Policy M) {s : EvictFS M} {name : String}
    (md : M) (hw : WF s) (h : regGet s.files name = none) :
    (addFileLocked P s name md).files = (name, s.nextId) :: s.files ∧
    (addFileLocked P s name md).currentSize = s.currentSize + P.size md ∧
    (addFileLocked P s name md).sig = s.sig ∧
    (addFileLocked P s name md).nextId = s.nextId + 1 ∧
    ((addFileLocked P s name md).store s.nextId).name = name ∧
    ((addFileLocked P s name md).store s.nextId).metadata = md ∧
    (∀ k, k ≠ s.nextId →
      ((addFileLocked P s name md).store k).name = (s.store k).name ∧
      ((addFileLocked P s name md).store k).metadata = (s.store k).metadata) ∧
    ((addFileLocked P s name md).pq).Perm (s.nextId :: s.pq) ∧
    WF (addFileLocked P s name md) := by
  have hid : ∀ k ∈ s.pq, k < s.nextId := hw.fresh
  have hnotpq : s.nextId ∉ s.pq := fun hm => by
    have := hid _ hm
    omega
  have hkeys : name ∉ s.files.map Prod.fst := regGet_eq_none.mp h
  have hidsB : ∀ kv ∈ s.files, kv.2 ≠ s.nextId := by
    intro kv hkv he
    have hm : kv.2 ∈ s.pq := hw.perm.mem_iff.mp (List.mem_map.mpr ⟨kv, hkv, rfl⟩)
    have := hid _ hm
    omega
  have hwB : WFidx { setStore s s.nextId { name := name, metadata := md, index := 0 } with
      files := regSet (setStore s s.nextId
        { name := name, metadata := md, index := 0 }).files name s.nextId,
      nextId := s.nextId + 1 } := by
    intro k hk
    have hk2 : k < s.pq.length := hk
    have hmem : s.pq.getD k 0 ∈ s.pq := by
      rw [getD_eq_getElem _ 0 hk2]
      exact List.getElem_mem hk2
    have hne : s.pq.getD k 0 ≠ s.nextId := fun he => hnotpq (he ▸ hmem)
    show ((setStore s s.nextId _).store (s.pq.getD k 0)).index = (k : Int)
    simp only [setStore]
    rw [if_neg hne]
    exact hw.idx k hk2
  obtain ⟨hfiP, hcsP, hsigP, hnxP, hnmP, hmdP, hothP, hpermP, hwfP⟩ :=
    heapPushGo_spec P { setStore s s.nextId { name := name, metadata := md, index := 0 } with
      files := regSet (setStore s s.nextId
        { name := name, metadata := md, index := 0 }).files name s.nextId,
      nextId := s.nextId + 1 } s.nextId hwB hw.pqNodup hnotpq
  have hregset : regSet (setStore s s.nextId
      { name := name, metadata := md, index := 0 }).files name s.nextId
      = (name, s.nextId) :: s.files := by
    show regSet s.files name s.nextId = _
    rw [regSet, regErase_of_not_mem hkeys]
  have hfiles : (addFileLocked P s name md).files = (name, s.nextId) :: s.files := by
    show (heapPushGo P _ s.nextId).files = _
    rw [hfiP]
    exact hregset
  have hcs : (addFileLocked P s name md).currentSize = s.currentSize + P.size md := by
    show (heapPushGo P _ s.nextId).currentSize + P.size md = _
    rw [hcsP]
    rfl
  have hsig : (addFileLocked P s name md).sig = s.sig := by
    show (heapPushGo P _ s.nextId).sig = _
    rw [hsigP]
    rfl
  have hnext : (addFileLocked P s name md).nextId = s.nextId + 1 := by
    show (heapPushGo P _ s.nextId).nextId = _
    rw [hnxP]
  have hnm : ((addFileLocked P s name md).store s.nextId).name = name := by
    show ((heapPushGo P _ s.nextId).store s.nextId).name = _
    rw [hnmP]
    simp [setStore]
  have hmd : ((addFileLocked P s name md).store s.nextId).metadata = md := by
    show ((heapPushGo P _ s.nextId).store s.nextId).metadata = _
    rw [hmdP]
    simp [setStore]
  have hoth : ∀ k, k ≠ s.nextId →
      ((addFileLocked P s name md).store k).name = (s.store k).name ∧
      ((addFileLocked P s name md).store k).metadata = (s.store k).metadata := by
    intro k hk
    have h1 := hothP k hk
    constructor
    · show ((heapPushGo P _ s.nextId).store k).name = _
      rw [h1.1]
      simp [setStore, hk]
    · show ((heapPushGo P _ s.nextId).store k).metadata = _
      rw [h1.2]
      simp [setStore, hk]
  have hperm : ((addFileLocked P s name md).pq).Perm (s.nextId :: s.pq) := by
    show (heapPushGo P _ s.nextId).pq.Perm _
    exact hpermP
  refine ⟨hfiles, hcs, hsig, hnext, hnm, hmd, hoth, hperm, ?_, ?_, ?_, ?_, ?_, ?_⟩
  · rw [hfiles]
    refine List.Perm.trans ?_ hperm.symm
    simp only [List.map_cons]
    exact hw.perm.cons s.nextId
  · intro kv hkv
    rw [hfiles] at hkv
    rcases List.mem_cons.mp hkv with he | ht
    · rw [he]
      exact hnm
    · have hne := hidsB kv ht
      rw [(hoth kv.2 hne).1]
      exact hw.namesOk kv ht
  · rw [hfiles]
    simp only [List.map_cons, List.nodup_cons]
    exact ⟨hkeys, hw.keysNodup⟩
  · have h1 : (s.nextId :: s.pq).Nodup := List.nodup_cons.mpr ⟨hnotpq, hw.pqNodup⟩
    exact hperm.nodup_iff.mpr h1
  · show WFidx (addFileLocked P s name md)
    intro k hk
    exact hwfP k hk
  · intro i hi
    rw [hnext]
    have hm : i ∈ s.nextId :: s.pq := hperm.mem_iff.mp hi
    rcases List.mem_cons.mp hm with he | ht
    · omega
    · have := hid _ ht
      omega

theorem touch_stat_fail_tracked {M : Type} (P : Policy M) (s : EvictFS M) (name : String)
    {id : Nat} (h : regGet s.files name = some id) :
    touch P s name none = removeFileLocked P s id := by
  simp only [touch, h]

theorem touch_stat_fail_untracked {M : Type} (P : Policy M) (s : EvictFS M) (name : String)
    (h : regGet s.files name = none) : touch P s name none = s := by
  simp only [touch, h]

theorem touch_dir {M : Type} (P : Policy M) (s : EvictFS M) (name : String)
    {info : FileInfo} (hd : info.isDir = true) : touch P s name (some info) = s := by
  simp only [touch, hd, if_true]

theorem wf_fix_sig {M : Type} (P : Policy M) {s : EvictFS M} (hw : WF s)
    (T : EvictFS M) (iT : Nat)
    (hTfi : T.files = s.files) (hTpq : T.pq = s.pq) (hTnx : T.nextId = s.nextId)
    (hTidx : ∀ k, (T.store k).index = (s.store k).index)
    (hTnm : ∀ k, (T.store k).name = (s.store k).name)
    (hiT : iT < s.pq.length) :
    WF { heapFixGo P T iT with sig := true } := by
  have hiT2 : iT < T.pq.length := by rw [hTpq]; exact hiT
  have hwT : WFidx T := by
    intro k hk
    rw [hTpq] at hk ⊢
    rw [hTidx]
    exact hw.idx k hk
  have hndT : T.pq.Nodup := by rw [hTpq]; exact hw.pqNodup
  have hfr := heapFixGo_frame P T iT hiT2
  have hpq : (heapFixGo P T iT).pq.Perm s.pq := by
    refine hfr.perm.trans ?_
    rw [hTpq]
  have hfis : ({ heapFixGo P T iT with sig := true } : EvictFS M).files = s.files :=
    (hfr.files).trans hTfi
  refine ⟨?_, ?_, ?_, ?_, ?_, ?_⟩
  · show (({ heapFixGo P T iT with sig := true } : EvictFS M).files.map Prod.snd).Perm
      (heapFixGo P T iT).pq
    rw [hfis]
    exact hw.perm.trans hpq.symm
  · intro kv hkv
    have hkv2 : kv ∈ s.files := by
      rw [← hfis]
      exact hkv
    show ((heapFixGo P T iT).store kv.2).name = kv.1
    rw [hfr.name, hTnm]
    exact hw.namesOk kv hkv2
  · show (({ heapFixGo P T iT with sig := true } : EvictFS M).files.map Prod.fst).Nodup
    rw [hfis]
    exact hw.keysNodup
  · show (heapFixGo P T iT).pq.Nodup
    exact hpq.nodup_iff.mpr hw.pqNodup
  · show WFidx ({ heapFixGo P T iT with sig := true } : EvictFS M)
    intro k hk
    exact wfidx_heapFixGo P hwT hndT hiT2 k hk
  · intro i hi
    have hnx : ({ heapFixGo P T iT with sig := true } : EvictFS M).nextId = s.nextId :=
      (hfr.nextId).trans hTnx
    rw [hnx]
    have hm : i ∈ s.pq := hpq.mem_iff.mp hi
    exact hw.fresh i hm

theorem touch_update_spec {M : Type} (P : Policy M) {s : EvictFS M} {name : String}
    {id : Nat} {info : FileInfo} (hw : WF s) (h : regGet s.files name = some id)
    (hd : info.isDir = false) :
    (touch P s name (some info)).files = s.files ∧
    (touch P s name (some info)).currentSize
      = s.currentSize - P.size ((s.store id).metadata)
        + P.size (P.update ((s.store id).metadata) info) ∧
    (touch P s name (some info)).sig = true ∧
    (touch P s name (some info)).nextId = s.nextId ∧
    ((touch P s name (some info)).store id).metadata
      = P.update ((s.store id).metadata) info ∧
    (∀ k, ((touch P s name (some info)).store k).name = (s.store k).name) ∧
    (∀ k, k ≠ id →
      ((touch P s name (some info)).store k).metadata = (s.store k).metadata) ∧
    (touch P s name (some info)).pq.Perm s.pq ∧
    WF (touch P s name (some info)) := by
  obtain ⟨hlt, hgd, hge0⟩ := hw.tracked_pos h
  simp only [touch, hd, Bool.false_eq_true, if_false, h]
  refine ⟨?_, ?_, trivial, ?_, ?_, ?_, ?_, ?_, ?_⟩
  · refine ((heapFixGo_frame P _ _ ?_).files).trans ?_
    · simpa [setStore] using hlt
    · rfl
  · refine ((heapFixGo_frame P _ _ ?_).currentSize).trans ?_
    · simpa [setStore] using hlt
    · simp [setStore]
  · refine ((heapFixGo_frame P _ _ ?_).nextId).trans ?_
    · simpa [setStore] using hlt
    · rfl
  · refine ((heapFixGo_frame P _ _ ?_).metadata id).trans ?_
    · simpa [setStore] using hlt
    · simp [setStore]
  · intro k
    refine ((heapFixGo_frame P _ _ ?_).name k).trans ?_
    · simpa [setStore] using hlt
    · by_cases hk : k = id
      · subst hk
        simp [setStore]
      · simp [setStore, hk]
  · intro k hk
    refine ((heapFixGo_frame P _ _ ?_).metadata k).trans ?_
    · simpa [setStore] using hlt
    · simp [setStore, hk]
  · refine ((heapFixGo_frame P _ _ ?_).perm).trans ?_
    · simpa [setStore] using hlt
    · show List.Perm s.pq s.pq
      exact List.Perm.refl _
  · refine wf_fix_sig P hw _ _ rfl rfl rfl ?_ ?_ ?_
    · intro k
      by_cases hk : k = id
      · subst hk
        simp [setStore]
      · simp [setStore, hk]
    · intro k
      by_cases hk : k = id
      · subst hk
        simp [setStore]
      · simp [setStore, hk]
    · simpa [setStore] using hlt

theorem touch_insert_spec {M : Type} (P : Policy M) {s : EvictFS M} {name : String}
    {info : FileInfo} (hw : WF s) (h : regGet s.files name = none)
    (hd : info.isDir = false) :
    (touch P s name (some info)).files = (name, s.nextId) :: s.files ∧
    (touch P s name (some info)).currentSize
      = s.currentSize + P.size (P.factory info) ∧
    (touch P s name (some info)).sig = true ∧
    (touch P s name (some info)).nextId = s.nextId + 1 ∧
    ((touch P s name (some info)).store s.nextId).metadata = P.factory info ∧
    (∀ k, k ≠ s.nextId →
      ((touch P s name (some info)).store k).name = (s.store k).name ∧
      ((touch P s name (some info)).store k).metadata = (s.store k).metadata) ∧
    (touch P s name (some info)).pq.Perm (s.nextId :: s.pq) ∧
    WF (touch P s name (some info)) := by
  have hred : touch P s name (some info) =
      { addFileLocked P s name (P.factory info) with sig := true } := by
    simp only [touch, hd, Bool.false_eq_true, if_false, h]
  obtain ⟨hfi, hcs, _, hnx, hnm, hmd, hoth, hperm, hwf⟩ :=
    addFileLocked_spec P (P.factory info) hw h
  rw [hred]
  refine ⟨hfi, hcs, rfl, hnx, hmd, hoth, hperm, ?_⟩
  exact ⟨hwf.perm, hwf.namesOk, hwf.keysNodup, hwf.pqNodup, hwf.idx, hwf.fresh⟩

theorem checkExpired_noage {M : Type} (P : Policy M) (cfg : Config) (s : EvictFS M)
    (b : Backing) (now : Int) (name : String) (hage : cfg.maxAge ≤ 0) :
    checkExpired P cfg s b now name = (s, b, false) := by
  simp [checkExpired, hage]

theorem checkExpired_untracked {M : Type} (P : Policy M) (cfg : Config) (s : EvictFS M)
    (b : Backing) (now : Int) (name : String) (hage : ¬ cfg.maxAge ≤ 0)
    (h : regGet s.files name = none) :
    checkExpired P cfg s b now name = (s, b, false) := by
  simp [checkExpired, hage, h]

theorem checkExpired_fresh {M : Type} (P : Policy M) (cfg : Config) (s : EvictFS M)
    (b : Backing) (now : Int) (name : String) {id : Nat} (hage : ¬ cfg.maxAge ≤ 0)
    (h : regGet s.files name = some id)
    (hfr : now - P.accessTime ((s.store id).metadata) ≤ cfg.maxAge) :
    checkExpired P cfg s b now name = (s, b, false) := by
  simp [checkExpired, hage, h, hfr]

theorem checkExpired_expired {M : Type} (P : Policy M) (cfg : Config) (s : EvictFS M)
    (b : Backing) (now : Int) (name : String) {id : Nat} (hage : ¬ cfg.maxAge ≤ 0)
    (h : regGet s.files name = some id)
    (hexp : ¬ now - P.accessTime ((s.store id).metadata) ≤ cfg.maxAge) :
    checkExpired P cfg s b now name = (removeFileLocked P s id, (bremove b name).1, true) := by
  simp [checkExpired, hage, h, hexp]

/-- trackedSum is the sum of `metadata.Size()` over all tracked items. -/
def trackedSum {M : Type} (P : Policy M) (s : EvictFS M) : Int :=
  (s.files.map (fun kv => P.size ((s.store kv.2).metadata))).sum

/-- SizeInv is the accounting invariant: `currentSize` equals the sum of
the tracked items' sizes. -/
def SizeInv {M : Type} (P : Policy M) (s : EvictFS M) : Prop :=
  s.currentSize = trackedSum P s

theorem trackedSum_congr {M : Type} (P : Policy M) {s s' : EvictFS M}
    (hf : s'.files = s.files)
    (hm : ∀ kv ∈ s.files, (s'.store kv.2).metadata = (s.store kv.2).metadata) :
    trackedSum P s' = trackedSum P s := by
  unfold trackedSum
  rw [hf]
  congr 1
  refine List.map_eq_map_iff.mpr ?_
  intro kv hkv
  rw [hm kv hkv]

theorem trackedSum_erase {M : Type} (P : Policy M) {s : EvictFS M} {name : String}
    {id : Nat} (hw : WF s) (h : regGet s.files name = some id) :
    trackedSum P s
      = P.size ((s.store id).metadata)
        + ((regErase s.files name).map (fun kv => P.size ((s.store kv.2).metadata))).sum := by
  have hp : s.files.Perm ((name, id) :: regErase s.files name) :=
    perm_cons_regErase hw.keysNodup (regGet_mem h)
  unfold trackedSum
  rw [(hp.map (fun kv => P.size ((s.store kv.2).metadata))).sum_eq]
  simp

theorem not_mem_erase_ids {M : Type} {s : EvictFS M} {name : String} {id : Nat}
    (hw : WF s) (h : regGet s.files name = some id) :
    ∀ kv ∈ regErase s.files name, kv.2 ≠ id := by
  have hp : s.files.Perm ((name, id) :: regErase s.files name) :=
    perm_cons_regErase hw.keysNodup (regGet_mem h)
  have hnd : (s.files.map Prod.snd).Nodup := hw.idsNodup
  have hnd2 : ((name, id) :: regErase s.files name).map Prod.snd
      |>.Nodup := ((hp.map Prod.snd).nodup_iff).mp hnd
  simp only [List.map_cons, List.nodup_cons] at hnd2
  intro kv hkv he
  exact hnd2.1 (List.mem_map.mpr ⟨kv, hkv, he⟩)

theorem sizeInv_removeFileLocked {M : Type} (P : Policy M) {s : EvictFS M}
    {name : String} {id : Nat} (hw : WF s) (h : regGet s.files name = some id)
    (hs : SizeInv P s) : SizeInv P (removeFileLocked P s id) := by
  obtain ⟨hfi, hcs, _, _, _, hmd, _, _, _⟩ := removeFileLocked_spec P hw h
  unfold SizeInv trackedSum
  rw [hfi, hcs]
  unfold SizeInv at hs
  rw [hs, trackedSum_erase P hw h]
  have hmap : (regErase s.files name).map
        (fun kv => P.size (((removeFileLocked P s id).store kv.2).metadata))
      = (regErase s.files name).map (fun kv => P.size ((s.store kv.2).metadata)) := by
    refine List.map_eq_map_iff.mpr ?_
    intro kv hkv
    rw [hmd kv.2]
  rw [hmap]
  omega

theorem sizeInv_addFileLocked {M : Type} (P : Policy M) {s : EvictFS M}
    {name : String} (md : M) (hw : WF s) (h : regGet s.files name = none)
    (hs : SizeInv P s) : SizeInv P (addFileLocked P s name md) := by
  obtain ⟨hfi, hcs, _, _, _, hmdn, hoth, _, _⟩ := addFileLocked_spec P md hw h
  have hids : ∀ kv ∈ s.files, kv.2 ≠ s.nextId := by
    intro kv hkv he
    have hm : kv.2 ∈ s.pq := hw.perm.mem_iff.mp (List.mem_map.mpr ⟨kv, hkv, rfl⟩)
    have := hw.fresh _ hm
    omega
  unfold SizeInv trackedSum
  rw [hfi, hcs]
  simp only [List.map_cons, List.sum_cons]
  rw [hmdn]
  have hmap : s.files.map
        (fun kv => P.size (((addFileLocked P s name md).store kv.2).metadata))
      = s.files.map (fun kv => P.size ((s.store kv.2).metadata)) := by
    refine List.map_eq_map_iff.mpr ?_
    intro kv hkv
    rw [(hoth kv.2 (hids kv hkv)).2]
  rw [hmap]
  unfold SizeInv at hs
  rw [hs]
  unfold trackedSum
  omega

theorem sizeInv_touch {M : Type} (P : Policy M) {s : EvictFS M} (name : String)
    (statRes : Option FileInfo) (hw : WF s) (hs : SizeInv P s) :
    SizeInv P (touch P s name statRes) := by
  match statRes with
  | none =>
    cases hreg : regGet s.files name with
    | none =>
      rw [touch_stat_fail_untracked P s name hreg]
      exact hs
    | some id =>
      rw [touch_stat_fail_tracked P s name hreg]
      exact sizeInv_removeFileLocked P hw hreg hs
  | some info =>
    cases hd : info.isDir with
    | true =>
      rw [touch_dir P s name hd]
      exact hs
    | false =>
      cases hreg : regGet s.files name with
      | none =>
        obtain ⟨hfi, hcs, _, _, hmdn, hoth, _, _⟩ := touch_insert_spec P hw hreg hd
        have hids : ∀ kv ∈ s.files, kv.2 ≠ s.nextId := by
          intro kv hkv he
          have hm : kv.2 ∈ s.pq := hw.perm.mem_iff.mp (List.mem_map.mpr ⟨kv, hkv, rfl⟩)
          have := hw.fresh _ hm
          omega
        unfold SizeInv trackedSum
        rw [hfi, hcs]
        simp only [List.map_cons, List.sum_cons]
        rw [hmdn]
        have hmap : s.files.map
              (fun kv => P.size (((touch P s name (some info)).store kv.2).metadata))
            = s.files.map (fun kv => P.size ((s.store kv.2).metadata)) := by
          refine List.map_eq_map_iff.mpr ?_
          intro kv hkv
          rw [(hoth kv.2 (hids kv hkv)).2]
        rw [hmap]
        unfold SizeInv at hs
        rw [hs]
        unfold trackedSum
        omega
      | some id =>
        obtain ⟨hfi, hcs, _, _, hmdu, _, hoth, _, _⟩ := touch_update_spec P hw hreg hd
        have herase := not_mem_erase_ids hw hreg
        unfold SizeInv trackedSum
        rw [hfi, hcs]
        have hp : s.files.Perm ((name, id) :: regErase s.files name) :=
          perm_cons_regErase hw.keysNodup (regGet_mem hreg)
        rw [(hp.map (fun kv =>
          P.size (((touch P s name (some info)).store kv.2).metadata))).sum_eq]
        simp only [List.map_cons, List.sum_cons]
        rw [hmdu]
        have hmap : (regErase s.files name).map
              (fun kv => P.size (((touch P s name (some info)).store kv.2).metadata))
            = (regErase s.files name).map (fun kv => P.size ((s.store kv.2).metadata)) := by
          refine List.map_eq_map_iff.mpr ?_
          intro kv hkv
          rw [hoth kv.2 (herase kv hkv)]
        rw [hmap]
        unfold SizeInv at hs
        rw [hs, trackedSum_erase P hw hreg]
        omega

theorem wf_touch {M : Type} (P : Policy M) {s : EvictFS M} (name : String)
    (statRes : Option FileInfo) (hw : WF s) : WF (touch P s name statRes) := by
  match statRes with
  | none =>
    cases hreg : regGet s.files name with
    | none =>
      rw [touch_stat_fail_untracked P s name hreg]
      exact hw
    | some id =>
      rw [touch_stat_fail_tracked P s name hreg]
      exact (removeFileLocked_spec P hw hreg).2.2.2.2.2.2.2.1
  | some info =>
    cases hd : info.isDir with
    | true =>
      rw [touch_dir P s name hd]
      exact hw
    | false =>
      cases hreg : regGet s.files name with
      | none => exact (touch_insert_spec P hw hreg hd).2.2.2.2.2.2.2
      | some id => exact (touch_update_spec P hw hreg hd).2.2.2.2.2.2.2.2

theorem mem_pq_root {M : Type} {s : EvictFS M} (hlen : 0 < s.pq.length) :
    pqGet s 0 ∈ s.pq := by
  unfold pqGet
  rw [getD_eq_getElem _ 0 hlen]
  exact List.getElem_mem hlen

theorem evictStep_spec {M : Type} (P : Policy M) {s : EvictFS M} (hw : WF s)
    (hlen : 0 < s.pq.length) :
    ({ (heapPopGo P s).1 with
        files := regErase (heapPopGo P s).1.files
          ((heapPopGo P s).1.store (heapPopGo P s).2).name,
        currentSize := (heapPopGo P s).1.currentSize
          - P.size ((heapPopGo P s).1.store (heapPopGo P s).2).metadata } : EvictFS M).files
      = regErase s.files ((s.store (pqGet s 0)).name) ∧
    ({ (heapPopGo P s).1 with
        files := regErase (heapPopGo P s).1.files
          ((heapPopGo P s).1.store (heapPopGo P s).2).name,
        currentSize := (heapPopGo P s).1.currentSize
          - P.size ((heapPopGo P s).1.store (heapPopGo P s).2).metadata } : EvictFS M).currentSize
      = s.currentSize - P.size ((s.store (pqGet s 0)).metadata) ∧
    ((heapPopGo P s).1.store (heapPopGo P s).2).name = (s.store (pqGet s 0)).name ∧
    (pqGet s 0 :: (heapPopGo P s).1.pq).Perm s.pq ∧
    WF ({ (heapPopGo P s).1 with
        files := regErase (heapPopGo P s).1.files
          ((heapPopGo P s).1.store (heapPopGo P s).2).name,
        currentSize := (heapPopGo P s).1.currentSize
          - P.size ((heapPopGo P s).1.store (heapPopGo P s).2).metadata } : EvictFS M) ∧
    (SizeInv P s → SizeInv P ({ (heapPopGo P s).1 with
        files := regErase (heapPopGo P s).1.files
          ((heapPopGo P s).1.store (heapPopGo P s).2).name,
        currentSize := (heapPopGo P s).1.currentSize
          - P.size ((heapPopGo P s).1.store (heapPopGo P s).2).metadata } : EvictFS M)) := by
  have hmem : pqGet s 0 ∈ s.pq := mem_pq_root hlen
  have hreg : regGet s.files ((s.store (pqGet s 0)).name) = some (pqGet s 0) :=
    hw.lookup_of_mem_pq hmem
  obtain ⟨hsnd, hfi, hcs, hsig, hnx, hnm, hmd, hperm, hwfi, hidx⟩ :=
    heapPopGo_spec P s hlen hw.idx hw.pqNodup
  have hitname : ((heapPopGo P s).1.store (heapPopGo P s).2).name
      = (s.store (pqGet s 0)).name := by
    rw [hsnd, hnm]
  have hitmd : ((heapPopGo P s).1.store (heapPopGo P s).2).metadata
      = (s.store (pqGet s 0)).metadata := by
    rw [hsnd, hmd]
  have hfiles : regErase (heapPopGo P s).1.files
      ((heapPopGo P s).1.store (heapPopGo P s).2).name
      = regErase s.files ((s.store (pqGet s 0)).name) := by
    rw [hfi, hitname]
  have hcs2 : (heapPopGo P s).1.currentSize
      - P.size ((heapPopGo P s).1.store (heapPopGo P s).2).metadata
      = s.currentSize - P.size ((s.store (pqGet s 0)).metadata) := by
    rw [hcs, hitmd]
  refine ⟨hfiles, hcs2, hitname, hperm, ?_, ?_⟩
  · refine ⟨?_, ?_, ?_, ?_, ?_, ?_⟩
    · show ((regErase (heapPopGo P s).1.files
        ((heapPopGo P s).1.store (heapPopGo P s).2).name).map Prod.snd).Perm
        (heapPopGo P s).1.pq
      rw [hfiles]
      have hp1 : s.files.Perm (((s.store (pqGet s 0)).name, pqGet s 0)
          :: regErase s.files ((s.store (pqGet s 0)).name)) :=
        perm_cons_regErase hw.keysNodup (regGet_mem hreg)
      have hp2 : (s.files.map Prod.snd).Perm
          (pqGet s 0 :: (regErase s.files ((s.store (pqGet s 0)).name)).map Prod.snd) := by
        simpa using hp1.map Prod.snd
      have hp3 := (hp2.symm.trans hw.perm).trans hperm.symm
      exact hp3.cons_inv
    · intro kv hkv
      have hkv2 : kv ∈ s.files := by
        rw [hfiles] at hkv
        exact List.mem_of_mem_filter hkv
      show ((heapPopGo P s).1.store kv.2).name = kv.1
      rw [hnm]
      exact hw.namesOk kv hkv2
    · show ((regErase (heapPopGo P s).1.files
        ((heapPopGo P s).1.store (heapPopGo P s).2).name).map Prod.fst).Nodup
      rw [hfiles]
      exact hw.keysNodup.sublist
        ((regErase_sublist s.files ((s.store (pqGet s 0)).name)).map Prod.fst)
    · show (heapPopGo P s).1.pq.Nodup
      have : (pqGet s 0 :: (heapPopGo P s).1.pq).Nodup := hperm.nodup_iff.mpr hw.pqNodup
      exact (List.nodup_cons.mp this).2
    · intro k hk
      exact hwfi k hk
    · intro i hi
      show i < (heapPopGo P s).1.nextId
      rw [hnx]
      have hm : i ∈ s.pq := hperm.mem_iff.mp (List.mem_cons_of_mem _ hi)
      exact hw.fresh i hm
  · intro hs
    show (heapPopGo P s).1.currentSize
        - P.size ((heapPopGo P s).1.store (heapPopGo P s).2).metadata
      = trackedSum P _
    rw [hcs2]
    unfold trackedSum
    show _ = ((regErase (heapPopGo P s).1.files
      ((heapPopGo P s).1.store (heapPopGo P s).2).name).map
        (fun kv => P.size (((heapPopGo P s).1.store kv.2).metadata))).sum
    rw [hfiles]
    have hmap : (regErase s.files ((s.store (pqGet s 0)).name)).map
          (fun kv => P.size (((heapPopGo P s).1.store kv.2).metadata))
        = (regErase s.files ((s.store (pqGet s 0)).name)).map
          (fun kv => P.size ((s.store kv.2).metadata)) := by
      refine List.map_eq_map_iff.mpr ?_
      intro kv hkv
      rw [hmd kv.2]
    rw [hmap]
    unfold SizeInv at hs
    rw [hs, trackedSum_erase P hw hreg]
    omega

theorem evictOnce_preserves {M : Type} (P : Policy M) (cfg : Config) :
    ∀ (s : EvictFS M) (b : Backing), WF s → SizeInv P s →
      WF (evictOnce P cfg s b).1 ∧ SizeInv P (evictOnce P cfg s b).1 := by
  intro s b
  induction s, b using evictOnce.induct P cfg with
  | case1 s b h r it hname =>
    intro hw hs
    have hname2 : ((heapPopGo P s).1.store (heapPopGo P s).2).name = "" := hname
    rw [evictOnce, dif_pos h]
    rw [if_pos hname2]
    obtain ⟨_, _, _, _, hwf1, hsz1⟩ := evictStep_spec P hw h.2
    exact ⟨hwf1, hsz1 hs⟩
  | case2 s b h r it s1 hname ih =>
    intro hw hs
    have hname2 : ¬ ((heapPopGo P s).1.store (heapPopGo P s).2).name = "" := hname
    rw [evictOnce, dif_pos h]
    rw [if_neg hname2]
    obtain ⟨_, _, _, _, hwf1, hsz1⟩ := evictStep_spec P hw h.2
    exact ih (hwf1) (hsz1 hs)
  | case3 s b h =>
    intro hw hs
    rw [evictOnce, dif_neg h]
    exact ⟨hw, hs⟩

/-- Good bundles the two quiescent-point invariants: structural
well-formedness of the index and the size-accounting equality. -/
def Good {M : Type} (P : Policy M) (s : EvictFS M) : Prop :=
  WF s ∧ SizeInv P s

theorem good_touch {M : Type} (P : Policy M) {s : EvictFS M} (name : String)
    (statRes : Option FileInfo) (hg : Good P s) : Good P (touch P s name statRes) :=
  ⟨wf_touch P name statRes hg.1, sizeInv_touch P name statRes hg.1 hg.2⟩

theorem good_removeFileLocked {M : Type} (P : Policy M) {s : EvictFS M} {name : String}
    {id : Nat} (h : regGet s.files name = some id) (hg : Good P s) :
    Good P (removeFileLocked P s id) :=
  ⟨(removeFileLocked_spec P hg.1 h).2.2.2.2.2.2.2.1,
    sizeInv_removeFileLocked P hg.1 h hg.2⟩

theorem good_checkExpired {M : Type} (P : Policy M) (cfg : Config) {s : EvictFS M}
    (b : Backing) (now : Int) (name : String) (hg : Good P s) :
    Good P (checkExpired P cfg s b now name).1 := by
  by_cases hage : cfg.maxAge ≤ 0
  · rw [checkExpired_noage P cfg s b now name hage]
    exact hg
  · cases hreg : regGet s.files name with
    | none =>
      rw [checkExpired_untracked P cfg s b now name hage hreg]
      exact hg
    | some id =>
      by_cases hfr : now - P.accessTime ((s.store id).metadata) ≤ cfg.maxAge
      · rw [checkExpired_fresh P cfg s b now name hage hreg hfr]
        exact hg
      · rw [checkExpired_expired P cfg s b now name hage hreg hfr]
        exact good_removeFileLocked P hreg hg

theorem good_sig {M : Type} (P : Policy M) {s : EvictFS M} (hg : Good P s) (v : Bool) :
    Good P { s with sig := v } := by
  obtain ⟨⟨h1, h2, h3, h4, h5, h6⟩, hz⟩ := hg
  exact ⟨⟨h1, h2, h3, h4, h5, h6⟩, hz⟩

theorem good_evictOnce {M : Type} (P : Policy M) (cfg : Config) {s : EvictFS M}
    (b : Backing) (hg : Good P s) : Good P (evictOnce P cfg s b).1 :=
  let r := evictOnce_preserves P cfg s b hg.1 hg.2
  ⟨r.1, r.2⟩

theorem good_wake {M : Type} (P : Policy M) (cfg : Config) {s : EvictFS M}
    (b : Backing) (hg : Good P s) : Good P (wake P cfg s b).1 := by
  unfold wake
  split
  · exact good_evictOnce P cfg b (good_sig P hg false)
  · exact hg

theorem fold_remove_preserves {M : Type} (P : Policy M) :
    ∀ (l : List (String × Nat)) (st : EvictFS M), WF st →
      (∀ kv ∈ l, regGet st.files kv.1 = some kv.2) → (l.map Prod.fst).Nodup →
      WF (l.foldl (fun a kv => removeFileLocked P a kv.2) st) ∧
      (SizeInv P st → SizeInv P (l.foldl (fun a kv => removeFileLocked P a kv.2) st)) := by
  intro l
  induction l with
  | nil =>
    intro st hw _ _
    exact ⟨hw, fun hs => hs⟩
  | cons kv t ih =>
    intro st hw htr hnd
    simp only [List.foldl_cons]
    have hkv := htr kv (List.mem_cons_self _ _)
    obtain ⟨hfi, _, _, _, _, _, _, hwf1, _⟩ := removeFileLocked_spec P hw hkv
    simp only [List.map_cons, List.nodup_cons] at hnd
    have htr2 : ∀ kv' ∈ t, regGet (removeFileLocked P st kv.2).files kv'.1 = some kv'.2 := by
      intro kv' hkv'
      have hne : kv'.1 ≠ kv.1 := by
        intro he
        exact hnd.1 (he ▸ List.mem_map.mpr ⟨kv', hkv', rfl⟩)
      rw [hfi, regGet_regErase_ne _ hne]
      exact htr kv' (List.mem_cons_of_mem _ hkv')
    obtain ⟨hwfold, hszfold⟩ := ih (removeFileLocked P st kv.2) hwf1 htr2 hnd.2
    exact ⟨hwfold, fun hs => hszfold (sizeInv_removeFileLocked P hw hkv hs)⟩

theorem good_removeAllLocked {M : Type} (P : Policy M) {s : EvictFS M} (name : String)
    (hg : Good P s) : Good P (removeAllLocked P s name) := by
  unfold removeAllLocked
  have hsub : (s.files.filter (fun kv => matchPre kv.1 name)).Sublist s.files :=
    List.filter_sublist s.files
  obtain ⟨hwf, hsz⟩ := fold_remove_preserves P
    (s.files.filter (fun kv => matchPre kv.1 name)) s hg.1
    (fun kv hkv => regGet_of_mem hg.1.keysNodup (List.mem_of_mem_filter hkv))
    (hg.1.keysNodup.sublist (hsub.map Prod.fst))
  exact ⟨hwf, hsz hg.2⟩

theorem good_openFileOp {M : Type} (P : Policy M) (cfg : Config) {s : EvictFS M}
    (b : Backing) (now : Int) (name : String) (flag : Nat) (newFi : FileInfo)
    (hg : Good P s) : Good P (openFileOp P cfg s b now name flag newFi).1 := by
  unfold openFileOp
  by_cases hflag : flag &&& oCREATE = 0
  · simp only [if_pos hflag]
    split
    · exact good_checkExpired P cfg b now name hg
    · split
      · exact good_touch P name _ (good_checkExpired P cfg b now name hg)
      · exact good_checkExpired P cfg b now name hg
  · simp only [if_neg hflag]
    split
    · exact hg
    · split
      · exact good_touch P name _ hg
      · exact hg

theorem good_openOp {M : Type} (P : Policy M) (cfg : Config) {s : EvictFS M}
    (b : Backing) (now : Int) (name : String) (hg : Good P s) :
    Good P (openOp P cfg s b now name).1 := by
  unfold openOp
  dsimp only
  split
  · exact good_checkExpired P cfg b now name hg
  · exact good_openFileOp P cfg _ now name oRDONLY _
      (good_checkExpired P cfg b now name hg)

theorem good_createOp {M : Type} (P : Policy M) (cfg : Config) {s : EvictFS M}
    (b : Backing) (now : Int) (name : String) (newFi : FileInfo) (hg : Good P s) :
    Good P (createOp P cfg s b now name newFi).1 :=
  good_openFileOp P cfg b now name (oRDWR ||| oCREATE ||| oTRUNC) newFi hg

theorem good_removeOp {M : Type} (P : Policy M) {s : EvictFS M} (b : Backing)
    (name : String) (hg : Good P s) : Good P (removeOp P s b name).1 := by
  unfold removeOp
  dsimp only
  split
  · split
    · rename_i id heq
      exact good_removeFileLocked P heq hg
    · exact hg
  · exact hg

theorem good_statOp {M : Type} (P : Policy M) (cfg : Config) {s : EvictFS M}
    (b : Backing) (now : Int) (name : String) (hg : Good P s) :
    Good P (statOp P cfg s b now name).1 := by
  unfold statOp
  dsimp only
  split
  · exact good_checkExpired P cfg b now name hg
  · split
    · exact good_touch P name _ (good_checkExpired P cfg b now name hg)
    · exact good_checkExpired P cfg b now name hg

theorem good_readFileOp {M : Type} (P : Policy M) (cfg : Config) {s : EvictFS M}
    (b : Backing) (now : Int) (name : String) (hg : Good P s) :
    Good P (readFileOp P cfg s b now name).1 := by
  unfold readFileOp
  dsimp only
  split
  · exact good_checkExpired P cfg b now name hg
  · split
    · exact good_touch P name _ (good_checkExpired P cfg b now name hg)
    · exact good_checkExpired P cfg b now name hg

theorem good_lstatOp {M : Type} (P : Policy M) (cfg : Config) {s : EvictFS M}
    (b : Backing) (now : Int) (name : String) (hg : Good P s) :
    Good P (lstatOp P cfg s b now name).1 := by
  unfold lstatOp
  dsimp only
  split
  · exact good_checkExpired P cfg b now name hg
  · split
    · exact good_touch P name _ (good_checkExpired P cfg b now name hg)
    · exact good_checkExpired P cfg b now name hg

theorem good_removeAllOp {M : Type} (P : Policy M) {s : EvictFS M} (b : Backing)
    (name : String) (hg : Good P s) : Good P (removeAllOp P s b name).1 := by
  unfold removeAllOp
  dsimp only
  split
  · exact good_removeAllLocked P name hg
  · exact hg

theorem good_renameOp {M : Type} (P : Policy M) (cfg : Config) {s : EvictFS M}
    (b : Backing) (now : Int) (oldname newname : String) (hg : Good P s) :
    Good P (renameOp P cfg s b now oldname newname).1 := by
  unfold renameOp
  dsimp only
  split
  · exact good_checkExpired P cfg b now oldname hg
  · split
    · split
      · rename_i id heq
        exact good_touch P newname _
          (good_removeFileLocked P heq (good_checkExpired P cfg b now oldname hg))
      · exact good_touch P newname _ (good_checkExpired P cfg b now oldname hg)
    · exact good_checkExpired P cfg b now oldname hg

theorem good_symlinkOp {M : Type} (P : Policy M) {s : EvictFS M} (b : Backing)
    (oldname newname : String) (fi : FileInfo) (ok : Bool) (hg : Good P s) :
    Good P (symlinkOp P s b oldname newname fi ok).1 := by
  unfold symlinkOp
  dsimp only
  split
  · exact good_touch P newname _ hg
  · exact hg

theorem good_writeFileOp {M : Type} (P : Policy M) {s : EvictFS M} (b : Backing)
    (name : String) (fi : FileInfo) (ok : Bool) (hg : Good P s) :
    Good P (writeFileOp P s b name fi ok).1 := by
  unfold writeFileOp
  dsimp only
  split
  · exact good_touch P name _ hg
  · exact hg

theorem good_lchownOp {M : Type} (P : Policy M) (cfg : Config) {s : EvictFS M}
    (b : Backing) (now : Int) (name owner group : String) (ok : Bool) (hg : Good P s) :
    Good P (lchownOp P cfg s b now name owner group ok).1 := by
  unfold lchownOp
  dsimp only
  split
  · exact good_checkExpired P cfg b now name hg
  · split
    · exact good_touch P name _ (good_checkExpired P cfg b now name hg)
    · exact good_checkExpired P cfg b now name hg

theorem good_truncateOp {M : Type} (P : Policy M) (cfg : Config) {s : EvictFS M}
    (b : Backing) (now : Int) (name : String) (size : Int) (ok : Bool) (hg : Good P s) :
    Good P (truncateOp P cfg s b now name size ok).1 := by
  unfold truncateOp
  dsimp only
  split
  · exact good_checkExpired P cfg b now name hg
  · split
    · exact good_touch P name _ (good_checkExpired P cfg b now name hg)
    · exact good_checkExpired P cfg b now name hg

theorem good_chownOp {M : Type} (P : Policy M) (cfg : Config) {s : EvictFS M}
    (b : Backing) (now : Int) (name owner group : String) (ok : Bool) (hg : Good P s) :
    Good P (chownOp P cfg s b now name owner group ok).1 := by
  unfold chownOp
  dsimp only
  split
  · exact good_checkExpired P cfg b now name hg
  · split
    · exact good_touch P name _ (good_checkExpired P cfg b now name hg)
    · exact good_checkExpired P cfg b now name hg

theorem good_chmodOp {M : Type} (P : Policy M) (cfg : Config) {s : EvictFS M}
    (b : Backing) (now : Int) (name : String) (mode : Nat) (ok : Bool) (hg : Good P s) :
    Good P (chmodOp P cfg s b now name mode ok).1 := by
  unfold chmodOp
  dsimp only
  split
  · exact good_checkExpired P cfg b now name hg
  · split
    · exact good_touch P name _ (good_checkExpired P cfg b now name hg)
    · exact good_checkExpired P cfg b now name hg

theorem good_chtimesOp {M : Type} (P : Policy M) (cfg : Config) {s : EvictFS M}
    (b : Backing) (now : Int) (name : String) (atv mtv : Int) (ok : Bool) (hg : Good P s) :
    Good P (chtimesOp P cfg s b now name atv mtv ok).1 := by
  unfold chtimesOp
  dsimp only
  split
  · exact good_checkExpired P cfg b now name hg
  · split
    · exact good_touch P name _ (good_checkExpired P cfg b now name hg)
    · exact good_checkExpired P cfg b now name hg

theorem good_fileWriteOp {M : Type} (P : Policy M) {s : EvictFS M} (b : Backing)
    (name : String) (n : Int) (werr : Bool) (hg : Good P s) :
    Good P (fileWriteOp P s b name n werr).1 := by
  unfold fileWriteOp
  dsimp only
  split
  · exact good_touch P name _ hg
  · exact hg

theorem good_fileTruncateOp {M : Type} (P : Policy M) {s : EvictFS M} (b : Backing)
    (name : String) (terr : Bool) (hg : Good P s) :
    Good P (fileTruncateOp P s b name terr).1 := by
  unfold fileTruncateOp
  dsimp only
  split
  · exact hg
  · exact good_touch P name _ hg

/-- HeapOrdered is the binary min-heap shape property maintained by
`container/heap`: no element is strictly less than its parent. -/
def HeapOrdered {M : Type} (P : Policy M) (s : EvictFS M) : Prop :=
  ∀ j, 0 < j → j < s.pq.length → pqLessB P s j ((j - 1) / 2) = false

theorem root_minimal {M : Type} (P : Policy M) {s : EvictFS M}
    (hho : HeapOrdered P s)
    (hirr : ∀ a, P.less a a = false)
    (hnt : ∀ a b c, P.less a c = true → P.less a b = true ∨ P.less b c = true) :
    ∀ k, k < s.pq.length → pqLessB P s k 0 = false := by
  intro k
  induction k using Nat.strong_induction_on with
  | _ k ih =>
    intro hk
    rcases Nat.eq_zero_or_pos k with h0 | hpos
    · subst h0
      unfold pqLessB
      exact hirr _
    · have hplt : (k - 1) / 2 < k := by omega
      have h1 : pqLessB P s k ((k - 1) / 2) = false := hho k hpos hk
      have h2 : pqLessB P s ((k - 1) / 2) 0 = false :=
        ih _ hplt (Nat.lt_trans hplt hk)
      by_contra hko
      rw [Bool.not_eq_false] at hko
      unfold pqLessB at hko h1 h2
      rcases hnt ((s.store (pqGet s k)).metadata)
        ((s.store (pqGet s ((k - 1) / 2))).metadata)
        ((s.store (pqGet s 0)).metadata) hko with hc | hc
      · rw [h1] at hc
        cases hc
      · rw [h2] at hc
        cases hc

theorem pop_min {M : Type} (P : Policy M) {s : EvictFS M} (hho : HeapOrdered P s)
    (hirr : ∀ a, P.less a a = false)
    (hnt : ∀ a b c, P.less a c = true → P.less a b = true ∨ P.less b c = true) :
    ∀ id ∈ s.pq, P.less ((s.store id).metadata) ((s.store (pqGet s 0)).metadata) = false := by
  intro id hid
  rcases List.getElem_of_mem hid with ⟨k, hk, hke⟩
  have hmin := root_minimal P hho hirr hnt k hk
  unfold pqLessB at hmin
  have hgd : pqGet s k = id := by
    unfold pqGet
    rw [getD_eq_getElem _ 0 hk, hke]
  rw [hgd] at hmin
  exact hmin

theorem evictOnce_stop {M : Type} (P : Policy M) (cfg : Config) (s : EvictFS M)
    (b : Backing) (h : ¬(evictCond cfg s = true ∧ 0 < s.pq.length)) :
    evictOnce P cfg s b = (s, b) := by
  rw [evictOnce, dif_neg h]

theorem evictOnce_break {M : Type} (P : Policy M) (cfg : Config) (s : EvictFS M)
    (b : Backing) (h : evictCond cfg s = true ∧ 0 < s.pq.length)
    (hname : ((heapPopGo P s).1.store (heapPopGo P s).2).name = "") :
    evictOnce P cfg s b =
      ({ (heapPopGo P s).1 with
          files := regErase (heapPopGo P s).1.files
            ((heapPopGo P s).1.store (heapPopGo P s).2).name,
          currentSize := (heapPopGo P s).1.currentSize
            - P.size ((heapPopGo P s).1.store (heapPopGo P s).2).metadata }, b) := by
  rw [evictOnce, dif_pos h]
  rw [if_pos hname]

theorem evictOnce_continue {M : Type} (P : Policy M) (cfg : Config) (s : EvictFS M)
    (b : Backing) (h : evictCond cfg s = true ∧ 0 < s.pq.length)
    (hname : ¬ ((heapPopGo P s).1.store (heapPopGo P s).2).name = "") :
    evictOnce P cfg s b =
      evictOnce P cfg
        { (heapPopGo P s).1 with
          files := regErase (heapPopGo P s).1.files
            ((heapPopGo P s).1.store (heapPopGo P s).2).name,
          currentSize := (heapPopGo P s).1.currentSize
            - P.size ((heapPopGo P s).1.store (heapPopGo P s).2).metadata }
        (bremove b ((heapPopGo P s).1.store (heapPopGo P s).2).name).1 := by
  rw [evictOnce, dif_pos h]
  rw [if_neg hname]

/-- C8: when `Config.Metadata` is nil, `New` installs the default LRU
policy, whose `Less` holds exactly when the first metadata's access time
is strictly before the second's (`Before`), and whose `Update` replaces
the stored FileInfo in place; `Size` and `AccessTime` read the stored
info. -/
theorem claim8_default_lru :
    resolveMetadata none = lruPolicy ∧
    (∀ a b : FileInfo, lruPolicy.less a b = true ↔ a.atime < b.atime) ∧
    (∀ m fi : FileInfo, lruPolicy.update m fi = fi) ∧
    (∀ m : FileInfo, lruPolicy.size m = m.size) ∧
    (∀ m : FileInfo, lruPolicy.accessTime m = m.atime) := by
  refine ⟨rfl, ?_, fun m fi => rfl, fun m => rfl, fun m => rfl⟩
  intro a b
  simp [lruPolicy]

/-- C9: ReadDir, Mkdir, MkdirAll and ReadLink are pure delegations: for
every state, backing and result (success or failure alike), the eviction
index (registry, heap, currentSize) and the signal channel come back
unchanged, no expiration check runs, no path is touched, and the backing
result is passed through verbatim. -/
theorem claim9_delegation :
    (∀ (M : Type) (s : EvictFS M) (b : Backing) (name : String) (res : Bool),
      readDirOp s b name res = (s, b, res)) ∧
    (∀ (M : Type) (s : EvictFS M) (b : Backing) (name : String) (perm : Nat) (res : Bool),
      mkdirOp s b name perm res = (s, b, res)) ∧
    (∀ (M : Type) (s : EvictFS M) (b : Backing) (name : String) (perm : Nat) (res : Bool),
      mkdirAllOp s b name perm res = (s, b, res)) ∧
    (∀ (M : Type) (s : EvictFS M) (b : Backing) (name : String) (res : Option String),
      readLinkOp s b name res = (s, b, res)) :=
  ⟨fun _ _ _ _ _ => rfl, fun _ _ _ _ _ _ => rfl, fun _ _ _ _ _ _ => rfl,
    fun _ _ _ _ _ => rfl⟩

/-- C10: a wrapped file handle re-touches its owning path after Write
exactly when the reported byte count is positive — even when the write
also reports an error, so a partial write still refreshes the path and
re-stats the backing file — while Truncate re-touches only on a nil
error. -/
theorem claim10_handle_touch (M : Type) (P : Policy M) (s : EvictFS M) (b : Backing)
    (name : String) (n : Int) (werr : Bool) (terr : Bool) :
    (0 < n → fileWriteOp P s b name n werr
      = (touch P s name (bstat b name), n, werr)) ∧
    (n ≤ 0 → fileWriteOp P s b name n werr = (s, n, werr)) ∧
    (terr = true → fileTruncateOp P s b name terr = (s, true)) ∧
    (terr = false → fileTruncateOp P s b name terr
      = (touch P s name (bstat b name), false)) := by
  refine ⟨?_, ?_, ?_, ?_⟩
  · intro hn
    unfold fileWriteOp
    rw [if_pos hn]
  · intro hn
    unfold fileWriteOp
    rw [if_neg (by omega)]
  · intro ht
    subst ht
    unfold fileTruncateOp
    rw [if_pos rfl]
  · intro ht
    subst ht
    unfold fileTruncateOp
    rw [if_neg (by simp)]

theorem claim10_witness :
    fileWriteOp lruPolicy lruState0 emptyB "f" 3 true
      = (touch lruPolicy lruState0 "f" (bstat emptyB "f"), 3, true) ∧
    fileWriteOp lruPolicy lruState0 emptyB "f" 0 true = (lruState0, 0, true) ∧
    fileTruncateOp lruPolicy lruState0 emptyB "f" true = (lruState0, true) ∧
    fileTruncateOp lruPolicy lruState0 emptyB "f" false
      = (touch lruPolicy lruState0 "f" (bstat emptyB "f"), false) :=
  ⟨(claim10_handle_touch FileInfo lruPolicy lruState0 emptyB "f" 3 true true).1
      (by decide),
    (claim10_handle_touch FileInfo lruPolicy lruState0 emptyB "f" 0 true true).2.1
      (by decide),
    (claim10_handle_touch FileInfo lruPolicy lruState0 emptyB "f" 0 true true).2.2.1 rfl,
    (claim10_handle_touch FileInfo lruPolicy lruState0 emptyB "f" 0 true false).2.2.2 rfl⟩

/-- C2: the expiration check is a no-op returning no error when
MaxAge ≤ 0; an untracked path, or a tracked one whose idle time
`now - AccessTime()` is at most MaxAge (the boundary counts as fresh),
passes with no error and no state change; otherwise the tracked item is
removed from registry and heap, a best-effort Remove is issued against
the backing filesystem, and the NotExist error is reported — the backing
is arbitrary here, so the error is returned even when the backing delete
fails (a `failRemove` entry). -/
theorem claim2_expiration_check (M : Type) (P : Policy M) (cfg : Config)
    (s : EvictFS M) (b : Backing) (now : Int) (name : String) (hw : WF s) :
    (cfg.maxAge ≤ 0 → checkExpired P cfg s b now name = (s, b, false)) ∧
    (¬ cfg.maxAge ≤ 0 → regGet s.files name = none →
      checkExpired P cfg s b now name = (s, b, false)) ∧
    (∀ id, ¬ cfg.maxAge ≤ 0 → regGet s.files name = some id →
      now - P.accessTime ((s.store id).metadata) ≤ cfg.maxAge →
      checkExpired P cfg s b now name = (s, b, false)) ∧
    (∀ id, ¬ cfg.maxAge ≤ 0 → regGet s.files name = some id →
      ¬ now - P.accessTime ((s.store id).metadata) ≤ cfg.maxAge →
      (checkExpired P cfg s b now name).1.files = regErase s.files name ∧
      (checkExpired P cfg s b now name).1.currentSize
        = s.currentSize - P.size ((s.store id).metadata) ∧
      (id :: (checkExpired P cfg s b now name).1.pq).Perm s.pq ∧
      (checkExpired P cfg s b now name).2.1 = (bremove b name).1 ∧
      (checkExpired P cfg s b now name).2.2 = true) := by
  refine ⟨?_, ?_, ?_, ?_⟩
  · intro hage
    exact checkExpired_noage P cfg s b now name hage
  · intro hage hreg
    exact checkExpired_untracked P cfg s b now name hage hreg
  · intro id hage hreg hfr
    exact checkExpired_fresh P cfg s b now name hage hreg hfr
  · intro id hage hreg hexp
    rw [checkExpired_expired P cfg s b now name hage hreg hexp]
    obtain ⟨hfi, hcs, _, _, _, _, hperm, _, _⟩ := removeFileLocked_spec P hw hreg
    exact ⟨hfi, hcs, hperm, rfl, rfl⟩

theorem claim2_witness :
    (cfgAge1.maxAge ≤ 0 →
      checkExpired lruPolicy cfgAge1 expState expBacking 10 "p"
        = (expState, expBacking, false)) ∧
    (¬ cfgAge1.maxAge ≤ 0 → regGet expState.files "p" = none →
      checkExpired lruPolicy cfgAge1 expState expBacking 10 "p"
        = (expState, expBacking, false)) ∧
    (∀ id, ¬ cfgAge1.maxAge ≤ 0 → regGet expState.files "p" = some id →
      10 - lruPolicy.accessTime ((expState.store id).metadata) ≤ cfgAge1.maxAge →
      checkExpired lruPolicy cfgAge1 expState expBacking 10 "p"
        = (expState, expBacking, false)) ∧
    (∀ id, ¬ cfgAge1.maxAge ≤ 0 → regGet expState.files "p" = some id →
      ¬ 10 - lruPolicy.accessTime ((expState.store id).metadata) ≤ cfgAge1.maxAge →
      (checkExpired lruPolicy cfgAge1 expState expBacking 10 "p").1.files
        = regErase expState.files "p" ∧
      (checkExpired lruPolicy cfgAge1 expState expBacking 10 "p").1.currentSize
        = expState.currentSize - lruPolicy.size ((expState.store id).metadata) ∧
      (id :: (checkExpired lruPolicy cfgAge1 expState expBacking 10 "p").1.pq).Perm
        expState.pq ∧
      (checkExpired lruPolicy cfgAge1 expState expBacking 10 "p").2.1
        = (bremove expBacking "p").1 ∧
      (checkExpired lruPolicy cfgAge1 expState expBacking 10 "p").2.2 = true) :=
  claim2_expiration_check FileInfo lruPolicy cfgAge1 expState expBacking 10 "p"
    ⟨by decide, by decide, by decide, by decide, by unfold WFidx; decide, by decide⟩

/-- C4: touch follows the spec's protocol. When the backing stat fails
(`none`), a tracked path is removed from registry and heap with its size
subtracted and no signal is sent (touch has no error return, so the
failure cannot propagate); an untracked path is left alone. A directory
changes nothing. A tracked path is updated in place: old size out, new
size in, metadata replaced via `Update`, heap position fixed, and the
non-blocking signal left pending. An untracked file is inserted via the
factory, pushed, its size added, and the signal left pending; the signal
channel is modelled with a Bool, so a pending signal is coalesced, never
duplicated. -/
theorem claim4_touch_protocol (M : Type) (P : Policy M) (s : EvictFS M)
    (name : String) (hw : WF s) :
    (∀ id, regGet s.files name = some id →
      (touch P s name none).files = regErase s.files name ∧
      (touch P s name none).currentSize
        = s.currentSize - P.size ((s.store id).metadata) ∧
      (touch P s name none).sig = s.sig ∧
      (id :: (touch P s name none).pq).Perm s.pq) ∧
    (regGet s.files name = none → touch P s name none = s) ∧
    (∀ info : FileInfo, info.isDir = true → touch P s name (some info) = s) ∧
    (∀ id (info : FileInfo), info.isDir = false → regGet s.files name = some id →
      (touch P s name (some info)).files = s.files ∧
      (touch P s name (some info)).currentSize
        = s.currentSize - P.size ((s.store id).metadata)
          + P.size (P.update ((s.store id).metadata) info) ∧
      ((touch P s name (some info)).store id).metadata
        = P.update ((s.store id).metadata) info ∧
      (touch P s name (some info)).pq.Perm s.pq ∧
      (touch P s name (some info)).sig = true) ∧
    (∀ info : FileInfo, info.isDir = false → regGet s.files name = none →
      (touch P s name (some info)).files = (name, s.nextId) :: s.files ∧
      (touch P s name (some info)).currentSize
        = s.currentSize + P.size (P.factory info) ∧
      ((touch P s name (some info)).store s.nextId).metadata = P.factory info ∧
      (touch P s name (some info)).sig = true) := by
  refine ⟨?_, ?_, ?_, ?_, ?_⟩
  · intro id hreg
    rw [touch_stat_fail_tracked P s name hreg]
    obtain ⟨hfi, hcs, hsig, _, _, _, hperm, _, _⟩ := removeFileLocked_spec P hw hreg
    exact ⟨hfi, hcs, hsig, hperm⟩
  · intro hreg
    exact touch_stat_fail_untracked P s name hreg
  · intro info hd
    exact touch_dir P s name hd
  · intro id info hd hreg
    obtain ⟨hfi, hcs, hsig, _, hmd, _, _, hperm, _⟩ := touch_update_spec P hw hreg hd
    exact ⟨hfi, hcs, hmd, hperm, hsig⟩
  · intro info hd hreg
    obtain ⟨hfi, hcs, hsig, _, hmd, _, _, _⟩ := touch_insert_spec P hw hreg hd
    exact ⟨hfi, hcs, hmd, hsig⟩

theorem claim4_witness :
    (∀ id, regGet expState.files "p" = some id →
      (touch lruPolicy expState "p" none).files = regErase expState.files "p" ∧
      (touch lruPolicy expState "p" none).currentSize
        = expState.currentSize - lruPolicy.size ((expState.store id).metadata) ∧
      (touch lruPolicy expState "p" none).sig = expState.sig ∧
      (id :: (touch lruPolicy expState "p" none).pq).Perm expState.pq) ∧
    (regGet expState.files "p" = none → touch lruPolicy expState "p" none = expState) ∧
    (∀ info : FileInfo, info.isDir = true →
      touch lruPolicy expState "p" (some info) = expState) ∧
    (∀ id (info : FileInfo), info.isDir = false →
      regGet expState.files "p" = some id →
      (touch lruPolicy expState "p" (some info)).files = expState.files ∧
      (touch lruPolicy expState "p" (some info)).currentSize
        = expState.currentSize - lruPolicy.size ((expState.store id).metadata)
          + lruPolicy.size (lruPolicy.update ((expState.store id).metadata) info) ∧
      ((touch lruPolicy expState "p" (some info)).store id).metadata
        = lruPolicy.update ((expState.store id).metadata) info ∧
      (touch lruPolicy expState "p" (some info)).pq.Perm expState.pq ∧
      (touch lruPolicy expState "p" (some info)).sig = true) ∧
    (∀ info : FileInfo, info.isDir = false → regGet expState.files "p" = none →
      (touch lruPolicy expState "p" (some info)).files
        = ("p", expState.nextId) :: expState.files ∧
      (touch lruPolicy expState "p" (some info)).currentSize
        = expState.currentSize + lruPolicy.size (lruPolicy.factory info) ∧
      ((touch lruPolicy expState "p" (some info)).store expState.nextId).metadata
        = lruPolicy.factory info ∧
      (touch lruPolicy expState "p" (some info)).sig = true) :=
  claim4_touch_protocol FileInfo lruPolicy expState "p"
    ⟨by decide, by decide, by decide, by decide, by unfold WFidx; decide, by decide⟩

/-- C5: at quiescent points the accounting invariant
`currentSize = Σ metadata.Size()` over tracked items is preserved by
scan-time insertion (addFileLocked on an untracked path), touch in all
its branches, explicit removal (Remove), recursive removal (RemoveAll),
expiry removal (checkExpired) and background eviction (the coordinator's
inner loop and a full wake). -/
theorem claim5_size_invariant (M : Type) (P : Policy M) (cfg : Config)
    (s : EvictFS M) (b : Backing) (now : Int) (name : String)
    (hw : WF s) (hs : SizeInv P s) :
    (∀ md, regGet s.files name = none → SizeInv P (addFileLocked P s name md)) ∧
    (∀ statRes, SizeInv P (touch P s name statRes)) ∧
    SizeInv P (removeOp P s b name).1 ∧
    SizeInv P (removeAllOp P s b name).1 ∧
    SizeInv P (checkExpired P cfg s b now name).1 ∧
    SizeInv P (evictOnce P cfg s b).1 ∧
    SizeInv P (wake P cfg s b).1 := by
  refine ⟨?_, ?_, ?_, ?_, ?_, ?_, ?_⟩
  · intro md hreg
    exact sizeInv_addFileLocked P md hw hreg hs
  · intro statRes
    exact sizeInv_touch P name statRes hw hs
  · exact (good_removeOp P b name ⟨hw, hs⟩).2
  · exact (good_removeAllOp P b name ⟨hw, hs⟩).2
  · exact (good_checkExpired P cfg b now name ⟨hw, hs⟩).2
  · exact (good_evictOnce P cfg b ⟨hw, hs⟩).2
  · exact (good_wake P cfg b ⟨hw, hs⟩).2

theorem claim5_witness :
    (∀ md, regGet expState.files "q" = none →
      SizeInv lruPolicy (addFileLocked lruPolicy expState "q" md)) ∧
    (∀ statRes, SizeInv lruPolicy (touch lruPolicy expState "q" statRes)) ∧
    SizeInv lruPolicy (removeOp lruPolicy expState expBacking "q").1 ∧
    SizeInv lruPolicy (removeAllOp lruPolicy expState expBacking "q").1 ∧
    SizeInv lruPolicy (checkExpired lruPolicy cfgAge1 expState expBacking 10 "q").1 ∧
    SizeInv lruPolicy (evictOnce lruPolicy cfgAge1 expState expBacking).1 ∧
    SizeInv lruPolicy (wake lruPolicy cfgAge1 expState expBacking).1 :=
  claim5_size_invariant FileInfo lruPolicy cfgAge1 expState expBacking 10 "q"
    ⟨by decide, by decide, by decide, by decide, by unfold WFidx; decide, by decide⟩
    (by unfold SizeInv trackedSum; decide)

/-- C6: at quiescent points the structural invariant holds and is
preserved by every operation: the registry and heap contain exactly the
same items (so the registry's length equals the heap's size), each
tracked item's stored heapIndex is a valid position that locates the
item in the heap array, every state-changing operation of the engine and
the facade preserves well-formedness, and an item removed from the heap
by `Pop` or `Remove` has its index set to the sentinel -1 immediately. -/
theorem claim6_structural_invariant (M : Type) (P : Policy M) (cfg : Config)
    (s : EvictFS M) (b : Backing) (now : Int) (name oldname newname owner group : String)
    (flag mode : Nat) (newFi : FileInfo) (sz n atv mtv : Int) (ok werr terr : Bool)
    (res : Bool) (res2 : Option String)
    (hw : WF s) (hs : SizeInv P s) :
    s.files.length = s.pq.length ∧
    (∀ nm id, regGet s.files nm = some id →
      0 ≤ (s.store id).index ∧ (s.store id).index.toNat < s.pq.length ∧
      s.pq.getD ((s.store id).index.toNat) 0 = id) ∧
    (∀ statRes, WF (touch P s name statRes)) ∧
    WF (checkExpired P cfg s b now name).1 ∧
    WF (evictOnce P cfg s b).1 ∧
    WF (wake P cfg s b).1 ∧
    WF (openOp P cfg s b now name).1 ∧
    WF (createOp P cfg s b now name newFi).1 ∧
    WF (openFileOp P cfg s b now name flag newFi).1 ∧
    WF (removeOp P s b name).1 ∧
    WF (readFileOp P cfg s b now name).1 ∧
    WF (statOp P cfg s b now name).1 ∧
    WF (readDirOp s b name res).1 ∧
    WF (mkdirOp s b name mode res).1 ∧
    WF (mkdirAllOp s b name mode res).1 ∧
    WF (removeAllOp P s b name).1 ∧
    WF (renameOp P cfg s b now oldname newname).1 ∧
    WF (symlinkOp P s b oldname newname newFi ok).1 ∧
    WF (readLinkOp s b name res2).1 ∧
    WF (lstatOp P cfg s b now name).1 ∧
    WF (lchownOp P cfg s b now name owner group ok).1 ∧
    WF (truncateOp P cfg s b now name sz ok).1 ∧
    WF (writeFileOp P s b name newFi ok).1 ∧
    WF (chownOp P cfg s b now name owner group ok).1 ∧
    WF (chmodOp P cfg s b now name mode ok).1 ∧
    WF (chtimesOp P cfg s b now name atv mtv ok).1 ∧
    WF (fileWriteOp P s b name n werr).1 ∧
    WF (fileTruncateOp P s b name terr).1 ∧
    (0 < s.pq.length →
      ((heapPopGo P s).1.store ((heapPopGo P s).2)).index = -1) ∧
    (∀ i, i < s.pq.length →
      ((heapRemoveGo P s i).1.store ((heapRemoveGo P s i).2)).index = -1) := by
  refine ⟨hw.length_eq, ?_, ?_, ?_, ?_, ?_, ?_, ?_, ?_, ?_, ?_, ?_, ?_, ?_, ?_, ?_,
    ?_, ?_, ?_, ?_, ?_, ?_, ?_, ?_, ?_, ?_, ?_, ?_, ?_, ?_⟩
  · intro nm id hreg
    obtain ⟨h1, h2, h3⟩ := hw.tracked_pos hreg
    exact ⟨h3, h1, h2⟩
  · intro statRes
    exact wf_touch P name statRes hw
  · exact (good_checkExpired P cfg b now name ⟨hw, hs⟩).1
  · exact (good_evictOnce P cfg b ⟨hw, hs⟩).1
  · exact (good_wake P cfg b ⟨hw, hs⟩).1
  · exact (good_openOp P cfg b now name ⟨hw, hs⟩).1
  · exact (good_createOp P cfg b now name newFi ⟨hw, hs⟩).1
  · exact (good_openFileOp P cfg b now name flag newFi ⟨hw, hs⟩).1
  · exact (good_removeOp P b name ⟨hw, hs⟩).1
  · exact (good_readFileOp P cfg b now name ⟨hw, hs⟩).1
  · exact (good_statOp P cfg b now name ⟨hw, hs⟩).1
  · exact hw
  · exact hw
  · exact hw
  · exact (good_removeAllOp P b name ⟨hw, hs⟩).1
  · exact (good_renameOp P cfg b now oldname newname ⟨hw, hs⟩).1
  · exact (good_symlinkOp P b oldname newname newFi ok ⟨hw, hs⟩).1
  · exact hw
  · exact (good_lstatOp P cfg b now name ⟨hw, hs⟩).1
  · exact (good_lchownOp P cfg b now name owner group ok ⟨hw, hs⟩).1
  · exact (good_truncateOp P cfg b now name sz ok ⟨hw, hs⟩).1
  · exact (good_writeFileOp P b name newFi ok ⟨hw, hs⟩).1
  · exact (good_chownOp P cfg b now name owner group ok ⟨hw, hs⟩).1
  · exact (good_chmodOp P cfg b now name mode ok ⟨hw, hs⟩).1
  · exact (good_chtimesOp P cfg b now name atv mtv ok ⟨hw, hs⟩).1
  · exact (good_fileWriteOp P b name n werr ⟨hw, hs⟩).1
  · exact (good_fileTruncateOp P b name terr ⟨hw, hs⟩).1
  · intro hlen
    have h := heapPopGo_spec P s hlen hw.idx hw.pqNodup
    rw [h.1]
    exact h.2.2.2.2.2.2.2.2.2
  · intro i hi
    have h := heapRemoveGo_spec P s hi hw.idx hw.pqNodup
    rw [h.1]
    exact h.2.2.2.2.2.2.2.2.2

theorem claim6_witness :
    expState.files.length = expState.pq.length ∧
    WF (touch lruPolicy expState "q" none) ∧
    WF (wake lruPolicy cfgAge1 expState expBacking).1 ∧
    WF (renameOp lruPolicy cfgAge1 expState expBacking 10 "old" "new").1 :=
  have h := claim6_structural_invariant FileInfo lruPolicy cfgAge1 expState expBacking
    10 "q" "old" "new" "o" "g" 0 420 (mkInfo 1 1) 0 1 0 0 true false false true
    (some "t")
    ⟨by decide, by decide, by decide, by decide, by unfold WFidx; decide, by decide⟩
    (by unfold SizeInv trackedSum; decide)
  ⟨h.1, h.2.2.1 none, h.2.2.2.2.2.1, h.2.2.2.2.2.2.2.2.2.2.2.2.2.2.2.2.1⟩

/-- C7: Scenario B. With MaxFiles = 2 under the default policy, after
creating "a" then "b", stat-ing "a" once the backing store reports its
refreshed access time (which re-touches "a" and fixes its heap
position), and creating "c", the settled coordinator has evicted exactly
"b": "b" is gone from the registry and deleted from the backing store,
while "a" and "c" remain tracked and stored. -/
theorem claim7_scenario_b :
    scB3.2.2 = none ∧
    (scB4w.1.files.map Prod.fst) = ["c", "a"] ∧
    regGet scB4w.1.files "b" = none ∧
    (scB4w.2.entries.map Prod.fst) = ["c", "a"] ∧
    lookupFi scB4w.2.entries "b" = none ∧
    scB4w.1.currentSize = 20 := by
  refine ⟨?_, ?_⟩
  · simp [scB3, scBenv, scB2w, scB2, scB1w, scB1, wake, evictOnce, evictCond,
      heapPopGo, heapFixGo, heapDown, heapDownAux, heapUp, heapPushGo, heapRemoveGo,
      pqPush, pqPopRaw, pqSwap, pqLessB, pqGet, setStore, addFileLocked,
      removeFileLocked, touch, checkExpired, regGet, regErase, regSet, bstat,
      lookupFi, bsetEntry, bremove, bopenFile, openFileOp, createOp, statOp,
      matchPre, emptyState, lruPolicy, mkInfo, cfgMax2, lruState0, emptyB,
      oCREATE, oRDWR, oRDONLY, oTRUNC]
  · simp [scB4w, scB4, scB3w, scB3, scBenv, scB2w, scB2, scB1w, scB1, wake,
      evictOnce, evictCond, heapPopGo, heapFixGo, heapDown, heapDownAux, heapUp,
      heapPushGo, heapRemoveGo, pqPush, pqPopRaw, pqSwap, pqLessB, pqGet, setStore,
      addFileLocked, removeFileLocked, touch, checkExpired, regGet, regErase,
      regSet, bstat, lookupFi, bsetEntry, bremove, bopenFile, openFileOp, createOp,
      statOp, matchPre, emptyState, lruPolicy, mkInfo, cfgMax2, lruState0, emptyB,
      oCREATE, oRDWR, oRDONLY, oTRUNC]

/-- C1 (counterexample): the claim's description of the eviction loop
fails on the empty-string path. In cexState the tracked path "" is the
heap minimum, MaxFiles = 1 is violated by three tracked files, yet after
one wake the loop has stopped with the bound still violated (two files
remain, the count bound still exceeded) and no delete was issued against
the backing store, because the popped empty name is read as the
nothing-popped sentinel. -/
theorem claim1_counterexample :
    regGet cexState.files "" = some 0 ∧
    evictCond cfgMax1 cexState = true ∧
    (evictOnce lruPolicy cfgMax1 cexState cexBacking).2 = cexBacking ∧
    evictCond cfgMax1 (evictOnce lruPolicy cfgMax1 cexState cexBacking).1 = true ∧
    regGet (evictOnce lruPolicy cfgMax1 cexState cexBacking).1.files "" = none := by
  refine ⟨by decide, by decide, ?_, ?_, ?_⟩
  all_goals
    simp [evictOnce, evictCond, heapPopGo, heapDown, heapDownAux, heapUp, pqPush,
      pqPopRaw, pqSwap, pqLessB, pqGet, setStore, regGet, regErase, bremove,
      cexState, cexBacking, cfgMax1, mkInfo, lruPolicy]

/-- C1 (amended): on each signal the coordinator loop behaves as
claimed, except that Go's empty-string sentinel cuts the loop short:
when no bound is violated the loop stops at once; when a bound is
violated and the heap is non-empty, the heap minimum (the root, which
under the policy's strict-weak-order laws and the heap-shape invariant
no tracked item is strictly less than) is popped, its registry entry
deleted and its size subtracted, and then — only if the popped path is
non-empty — the path is removed from the backing store with the error
discarded (the backing is arbitrary, so a failing delete changes
nothing) and the loop continues; if the popped path is the empty string
the loop breaks immediately with no backing delete, even if a bound is
still violated. -/
theorem claim1_amended (M : Type) (P : Policy M) (cfg : Config) (s : EvictFS M)
    (b : Backing) (hw : WF s) :
    (evictCond cfg s = false → evictOnce P cfg s b = (s, b)) ∧
    (evictCond cfg s = true → 0 < s.pq.length →
      (s.store (pqGet s 0)).name ≠ "" →
      ∃ s1, evictOnce P cfg s b
          = evictOnce P cfg s1 (bremove b ((s.store (pqGet s 0)).name)).1 ∧
        s1.files = regErase s.files ((s.store (pqGet s 0)).name) ∧
        s1.currentSize = s.currentSize - P.size ((s.store (pqGet s 0)).metadata) ∧
        (pqGet s 0 :: s1.pq).Perm s.pq ∧ WF s1) ∧
    (evictCond cfg s = true → 0 < s.pq.length →
      (s.store (pqGet s 0)).name = "" →
      ∃ s1, evictOnce P cfg s b = (s1, b) ∧
        s1.files = regErase s.files "" ∧
        s1.currentSize = s.currentSize - P.size ((s.store (pqGet s 0)).metadata) ∧
        (pqGet s 0 :: s1.pq).Perm s.pq ∧ WF s1) ∧
    ((∀ a, P.less a a = false) →
      (∀ x y z, P.less x z = true → P.less x y = true ∨ P.less y z = true) →
      HeapOrdered P s →
      ∀ id ∈ s.pq,
        P.less ((s.store id).metadata) ((s.store (pqGet s 0)).metadata) = false) := by
  refine ⟨?_, ?_, ?_, ?_⟩
  · intro hc
    refine evictOnce_stop P cfg s b ?_
    intro hand
    rw [hc] at hand
    cases hand.1
  · intro hc hlen hname
    obtain ⟨hfi, hcs, hitname, hperm, hwf1, _⟩ := evictStep_spec P hw hlen
    refine ⟨_, ?_, hfi, hcs, hperm, hwf1⟩
    have hname2 : ¬ ((heapPopGo P s).1.store (heapPopGo P s).2).name = "" := by
      rw [hitname]
      exact hname
    rw [evictOnce_continue P cfg s b ⟨hc, hlen⟩ hname2, hitname]
  · intro hc hlen hname
    obtain ⟨hfi, hcs, hitname, hperm, hwf1, _⟩ := evictStep_spec P hw hlen
    refine ⟨_, ?_, ?_, hcs, hperm, hwf1⟩
    · refine evictOnce_break P cfg s b ⟨hc, hlen⟩ ?_
      rw [hitname]
      exact hname
    · rw [hfi, hname]
  · intro hirr hnt hho id hid
    exact pop_min P hho hirr hnt id hid

theorem claim1_witness :
    (∃ s1, evictOnce lruPolicy cfgMax1 cexState cexBacking = (s1, cexBacking) ∧
      s1.files = regErase cexState.files "" ∧
      s1.currentSize = cexState.currentSize
        - lruPolicy.size ((cexState.store (pqGet cexState 0)).metadata) ∧
      (pqGet cexState 0 :: s1.pq).Perm cexState.pq ∧ WF s1) ∧
    (∀ id ∈ cexState.pq,
      lruPolicy.less ((cexState.store id).metadata)
        ((cexState.store (pqGet cexState 0)).metadata) = false) :=
  have h := claim1_amended FileInfo lruPolicy cfgMax1 cexState cexBacking
    ⟨by decide, by decide, by decide, by decide, by unfold WFidx; decide, by decide⟩
  ⟨h.2.2.1 (by decide) (by decide) (by decide),
    h.2.2.2 (fun a => by simp [lruPolicy])
      (fun x y z hxz => by
        simp only [lruPolicy, decide_eq_true_eq] at hxz ⊢
        omega)
      (by
        intro j hj0 hjlen
        have h3 : j < 3 := by simpa [cexState] using hjlen
        interval_cases j
        all_goals decide)⟩

/-- C3 (counterexample): in expState the path "p" is tracked, MaxAge = 1
is configured and "p" is long expired at now = 10, yet Symlink with "p"
as the new name succeeds (no NotExist error: the code runs no expiration
check before Symlink) and ReadLink returns the backing result with the
index untouched — contradicting the claim that the link operations
symlink and readlink are gated by the expiration check. -/
theorem claim3_counterexample :
    (¬ cfgAge1.maxAge ≤ 0) ∧
    regGet expState.files "p" = some 0 ∧
    (¬ 10 - lruPolicy.accessTime ((expState.store 0).metadata) ≤ cfgAge1.maxAge) ∧
    (symlinkOp lruPolicy expState expBacking "src" "p" (mkInfo 0 10) true).2.2
      = none ∧
    readLinkOp expState expBacking "p" (some "t") = (expState, expBacking, some "t") := by
  exact ⟨by decide, by decide, by decide, rfl, rfl⟩

/-- C3 (amended): when MaxAge is configured and the path is a tracked,
expired entry, the gated operations — open, openFile without O_CREATE,
readFile, stat, the source of rename, lstat, lchown, truncate, chown,
chmod, chtimes — fail with the NotExist-class error, while create,
whole-file write and openFile with O_CREATE bypass the check and
succeed; symlink and readlink also bypass the check (no expiration gate
runs in their code paths): symlink succeeds even when its new name is an
expired tracked path, and readlink is a pure delegation. -/
theorem claim3_amended (M : Type) (P : Policy M) (cfg : Config) (s : EvictFS M)
    (b : Backing) (now : Int) (name oldname newname owner group : String)
    (mode : Nat) (newFi fi2 : FileInfo) (sz atv mtv : Int) (res : Option String)
    (id : Nat) (hage : ¬ cfg.maxAge ≤ 0) (hreg : regGet s.files name = some id)
    (hexp : ¬ now - P.accessTime ((s.store id).metadata) ≤ cfg.maxAge) :
    (openOp P cfg s b now name).2.2 = some FsError.notExist ∧
    (∀ flag, flag &&& oCREATE = 0 →
      (openFileOp P cfg s b now name flag newFi).2.2 = some FsError.notExist) ∧
    (readFileOp P cfg s b now name).2.2 = some FsError.notExist ∧
    (statOp P cfg s b now name).2.2 = some FsError.notExist ∧
    (renameOp P cfg s b now name newname).2.2 = some FsError.notExist ∧
    (lstatOp P cfg s b now name).2.2 = some FsError.notExist ∧
    (∀ ok, (lchownOp P cfg s b now name owner group ok).2.2
      = some FsError.notExist) ∧
    (∀ ok, (truncateOp P cfg s b now name sz ok).2.2 = some FsError.notExist) ∧
    (∀ ok, (chownOp P cfg s b now name owner group ok).2.2
      = some FsError.notExist) ∧
    (∀ ok, (chmodOp P cfg s b now name mode ok).2.2 = some FsError.notExist) ∧
    (∀ ok, (chtimesOp P cfg s b now name atv mtv ok).2.2
      = some FsError.notExist) ∧
    (createOp P cfg s b now name newFi).2.2 = none ∧
    (∀ flag, flag &&& oCREATE ≠ 0 →
      (openFileOp P cfg s b now name flag newFi).2.2 = none) ∧
    (writeFileOp P s b name newFi true).2.2 = none ∧
    (symlinkOp P s b oldname name fi2 true).2.2 = none ∧
    readLinkOp s b name res = (s, b, res) := by
  have hce := checkExpired_expired P cfg s b now name hage hreg hexp
  refine ⟨?_, ?_, ?_, ?_, ?_, ?_, ?_, ?_, ?_, ?_, ?_, ?_, ?_, rfl, rfl, rfl⟩
  · simp [openOp, hce]
  · intro flag hflag
    simp [openFileOp, hflag, hce]
  · simp [readFileOp, hce]
  · simp [statOp, hce]
  · simp [renameOp, hce]
  · simp [lstatOp, hce]
  · intro ok
    simp [lchownOp, hce]
  · intro ok
    simp [truncateOp, hce]
  · intro ok
    simp [chownOp, hce]
  · intro ok
    simp [chmodOp, hce]
  · intro ok
    simp [chtimesOp, hce]
  · simp [createOp, openFileOp, bopenFile, oCREATE, oRDWR, oTRUNC]
  · intro flag hflag
    simp [openFileOp, hflag, bopenFile]

theorem claim3_witness :
    (statOp lruPolicy cfgAge1 expState expBacking 10 "p").2.2
      = some FsError.notExist ∧
    (createOp lruPolicy cfgAge1 expState expBacking 10 "p" (mkInfo 1 10)).2.2
      = none ∧
    (symlinkOp lruPolicy expState expBacking "src" "p" (mkInfo 0 10) true).2.2
      = none :=
  have h := claim3_amended FileInfo lruPolicy cfgAge1 expState expBacking 10 "p"
    "src" "n" "o" "g" 420 (mkInfo 1 10) (mkInfo 0 10) 0 0 0 (some "t") 0
    (by decide) (by decide) (by decide)
  ⟨h.2.2.2.1, h.2.2.2.2.2.2.2.2.2.2.2.1, h.2.2.2.2.2.2.2.2.2.2.2.2.2.2.1⟩

end Evictfs
